import Mathlib

/-!
Verification of the resume-screening application (src/app.py, src/db.py)
against its natural-language specification.

Shallow embedding conventions:
- A Python `str` is modelled as `List Char` (a list of Unicode scalar values).
- Python exceptions are modelled with `Except PyExc`; a caught-and-defaulted
  exception becomes `Option`.
- JSON values (`json.loads` results) are modelled by the inductive type `Json`.
  JSON numbers are modelled as arbitrary-precision integers; fractional and
  exponent number forms (Python floats) are outside the embedding, as is the
  `NaN`/`Infinity` extension.  Python `dict`s are modelled as association
  lists in insertion order; inserting an existing key overwrites its value in
  place, as in CPython.
- External collaborators (the generative-model client, the password hasher,
  `secure_filename`, the PDF text extractor and the PDF renderer) are taken
  as parameters, per the spec's External Interfaces section.
-/

/-- A Python exception, identified by its message text. -/
abbrev PyExc := String

/-- A Python string: a list of Unicode scalar values. -/
abbrev Str := List Char

/-- Shorthand for string literals in the `List Char` model. -/
def S (s : String) : Str := s.toList

/-- Whitespace characters stripped by Python's `str.strip()` (ASCII range;
the full Unicode whitespace set is irrelevant to the texts in scope). -/
def isPyWs (c : Char) : Bool :=
  c == ' ' || c == '\t' || c == '\n' || c == '\r' || c == '\x0b' || c == '\x0c'

/-- Python `text.strip()`: remove leading and trailing whitespace. -/
def pyStrip (s : Str) : Str :=
  (s.dropWhile isPyWs).rdropWhile isPyWs

/-- Python `text.find(c)`: index of the first occurrence, or -1. -/
def pyFind (s : Str) (c : Char) : Int :=
  match s.findIdx? (· == c) with
  | some i => (i : Int)
  | none => -1

/-- Python `text.rfind(c)`: index of the last occurrence, or -1. -/
def pyRfind (s : Str) (c : Char) : Int :=
  match s.reverse.findIdx? (· == c) with
  | some i => ((s.length - 1 - i : Nat) : Int)
  | none => -1

/-- Python slicing `s[a:b]` for non-negative bounds. -/
def pySlice (s : Str) (a b : Int) : Str :=
  (s.take b.toNat).drop a.toNat

/-- The JSON data model: the possible results of `json.loads`. -/
inductive Json where
  | null
  | bool (b : Bool)
  | num (n : Int)
  | str (s : Str)
  | arr (elems : List Json)
  | obj (fields : List (Str × Json))
deriving Repr

/-- Python truthiness (`bool(x)`) of a decoded JSON value: `None`, `False`,
`0`, and empty strings/lists/dicts are falsy. -/
def Json.truthy : Json → Bool
  | .null => false
  | .bool b => b
  | .num n => n != 0
  | .str s => !s.isEmpty
  | .arr l => !l.isEmpty
  | .obj l => !l.isEmpty

/-- Lookup in an association-list object (Python `d.get(k)` / `k in d`). -/
def assocGet (kvs : List (Str × Json)) (k : Str) : Option Json :=
  match kvs.find? (fun kv => kv.1 == k) with
  | some kv => some kv.2
  | none => none

/-- Python `dict` insertion `d[k] = v`: overwrite in place if the key exists,
else append at the end (CPython insertion-order semantics). -/
def objInsert (kvs : List (Str × Json)) (k : Str) (v : Json) : List (Str × Json) :=
  if kvs.any (fun kv => kv.1 == k) then
    kvs.map (fun kv => if kv.1 == k then (kv.1, v) else kv)
  else kvs ++ [(k, v)]

/-- JSON whitespace skipped by the decoder. -/
def isJsonWs (c : Char) : Bool :=
  c == ' ' || c == '\t' || c == '\n' || c == '\r'

/-- Skip leading JSON whitespace. -/
def skipWs (s : Str) : Str := s.dropWhile isJsonWs

/-- Value of a decimal digit character. -/
def digitVal (c : Char) : Nat := c.toNat - 48

/-- Value of a hexadecimal digit character, if it is one. -/
def hexVal (c : Char) : Option Nat :=
  if '0' ≤ c ∧ c ≤ '9' then some (c.toNat - 48)
  else if 'a' ≤ c ∧ c ≤ 'f' then some (c.toNat - 87)
  else if 'A' ≤ c ∧ c ≤ 'F' then some (c.toNat - 55)
  else none

/-- The scalar value of a decimal digit string, most significant first. -/
def digitsVal (ds : Str) : Nat :=
  ds.foldl (fun a c => a * 10 + digitVal c) 0

/-- A scalar-value-safe constructor for `Char`. -/
def charOfNat? (n : Nat) : Option Char :=
  if Nat.isValidChar n then some (Char.ofNat n) else none

/-- Decode a JSON short escape character (the character after a backslash). -/
def shortEscape (c : Char) : Option Char :=
  if c = '"' then some '"'
  else if c = '\\' then some '\\'
  else if c = '/' then some '/'
  else if c = 'b' then some '\x08'
  else if c = 'f' then some '\x0c'
  else if c = 'n' then some '\n'
  else if c = 'r' then some '\r'
  else if c = 't' then some '\t'
  else none

/-- Combine four hexadecimal digit characters into a scalar value. -/
def hexQuad (a b c d : Char) : Option Nat :=
  match hexVal a, hexVal b, hexVal c, hexVal d with
  | some ha, some hb, some hc, some hd => some (ha * 4096 + hb * 256 + hc * 16 + hd)
  | _, _, _, _ => none

/-- Read four hexadecimal digit characters off the front of the input. -/
def hexQuadAt : Str → Option (Nat × Str)
  | a :: b :: c :: d :: rest =>
    (match hexQuad a b c d with
    | some n => some (n, rest)
    | none => none)
  | _ => none

/-- Prepend a decoded character to the result of decoding the rest of a
string body (`None` propagates). -/
def consResult (ch : Char) : Option (Str × Str) → Option (Str × Str)
  | some (s1, r) => some (ch :: s1, r)
  | none => none

/-- Combine a decoded surrogate pair (`n` high, `m` low) into one character
and continue the string body with `psb`. -/
def parseLowHex4Result (psb : Str → Option (Str × Str)) (n m : Nat) (rest3 : Str) :
    Option (Str × Str) :=
  if 0xDC00 ≤ m ∧ m ≤ 0xDFFF then
    match charOfNat? (0x10000 + (n - 0xD800) * 0x400 + (m - 0xDC00)) with
    | some ch => consResult ch (psb rest3)
    | none => none
  else none

/-- Decode the low half of a `\\uXXXX\\uYYYY` surrogate pair (after the
high half gave `n`), continuing the string body with `psb`.  Python itself
keeps a lone surrogate; lone-surrogate strings are outside this model's
scalar-value alphabet, so here they fail. -/
def parseLowSurrogateWith (psb : Str → Option (Str × Str)) (n : Nat) :
    Str → Option (Str × Str)
  | e2 :: u2 :: r2 =>
    if e2 = '\\' ∧ u2 = 'u' then
      match hexQuadAt r2 with
      | some (m, rest3) => parseLowHex4Result psb n m rest3
      | none => none
    else none
  | _ => none

/-- Decode the value `n` of a `\\uXXXX` escape: a high surrogate must be
followed by a matching low escape; anything else is one BMP character. -/
def parseHex4Result (psb : Str → Option (Str × Str)) (n : Nat) (rest2 : Str) :
    Option (Str × Str) :=
  if 0xD800 ≤ n ∧ n ≤ 0xDBFF then parseLowSurrogateWith psb n rest2
  else
    match charOfNat? n with
    | some ch => consResult ch (psb rest2)
    | none => none

/-- Decode a `\\uXXXX` escape (after the backslash-u) and the remainder,
continuing the string body with `psb`. -/
def parseUEscapeWith (psb : Str → Option (Str × Str)) (s : Str) : Option (Str × Str) :=
  match hexQuadAt s with
  | some (n, rest2) => parseHex4Result psb n rest2
  | none => none

/-- Decode one escape sequence (after the backslash), continuing the string
body with `psb`. -/
def parseEscapeWith (psb : Str → Option (Str × Str)) : Str → Option (Str × Str)
  | [] => none
  | e :: rest1 =>
    if e = 'u' then parseUEscapeWith psb rest1
    else
      match shortEscape e with
      | some ch => consResult ch (psb rest1)
      | none => none

/-- Decode the body of a JSON string literal (after the opening quote),
returning the decoded characters and the input after the closing quote.
Matches Python's strict decoder: raw control characters are rejected, and
`\\uXXXX` escapes in the surrogate ranges must form a well-matched pair.
`fuel` bounds the recursion depth; every step consumes at least one input
character, so callers pass one more than the input length, which never
runs out before the input does. -/
def parseStringBody : Nat → Str → Option (Str × Str)
  | 0, _ => none
  | fuel + 1, s =>
    match s with
    | [] => none
    | c :: rest =>
      if c = '"' then some ([], rest)
      else if c = '\\' then parseEscapeWith (parseStringBody fuel) rest
      else if c.toNat < 0x20 then none
      else consResult c (parseStringBody fuel rest)

/-- Parse an unsigned JSON integer: a non-empty digit run with no leading
zero, not followed by a fractional or exponent part. -/
def parseNat (s : Str) : Option (Nat × Str) :=
  let ds := s.takeWhile Char.isDigit
  let rest := s.dropWhile Char.isDigit
  if ds.isEmpty then none
  else if ds.length > 1 && ds.head? == some '0' then none
  else
    match rest with
    | c :: _ => if c = '.' || c = 'e' || c = 'E' then none else some (digitsVal ds, rest)
    | [] => some (digitsVal ds, rest)

/-- Parse a JSON number (integer forms only; see module comment). -/
def parseNumber (s : Str) : Option (Json × Str) :=
  match s with
  | [] => none
  | c :: r =>
    if c = '-' then
      match parseNat r with
      | some (n, r1) => some (Json.num (-(n : Int)), r1)
      | none => none
    else
      match parseNat (c :: r) with
      | some (n, r1) => some (Json.num (n : Int), r1)
      | none => none

/-- Turn a parsed member list into the JSON object value (insertion-order
dict semantics, later keys overwriting in place). -/
def objResult : Option (List (Str × Json) × Str) → Option (Json × Str)
  | some (kvs, rest) => some (Json.obj (kvs.foldl (fun acc kv => objInsert acc kv.1 kv.2) []), rest)
  | none => none

/-- Turn a parsed string body into the JSON string value. -/
def strResult : Option (Str × Str) → Option (Json × Str)
  | some (cs, rest) => some (Json.str cs, rest)
  | none => none

/-- The tail of the literal `true` (after the `t`). -/
def parseTrueTail : Str → Option (Json × Str)
  | 'r' :: 'u' :: 'e' :: rest => some (Json.bool true, rest)
  | _ => none

/-- The tail of the literal `false` (after the `f`). -/
def parseFalseTail : Str → Option (Json × Str)
  | 'a' :: 'l' :: 's' :: 'e' :: rest => some (Json.bool false, rest)
  | _ => none

/-- The tail of the literal `null` (after the `n`). -/
def parseNullTail : Str → Option (Json × Str)
  | 'u' :: 'l' :: 'l' :: rest => some (Json.null, rest)
  | _ => none

/-- Feed one parsed array element to the rest-of-array loop `per` with it
pushed on the accumulator (`None` propagates). -/
def elemCont (per : List Json → Str → Option (Json × Str)) (acc : List Json) :
    Option (Json × Str) → Option (Json × Str)
  | some (v, r1) => per (v :: acc) r1
  | none => none

/-- Feed one parsed member value to the rest-of-object loop `pkr` with the
pair pushed on the accumulator (`None` propagates). -/
def kvValCont (pkr : List (Str × Json) → Str → Option (List (Str × Json) × Str))
    (acc : List (Str × Json)) (k : Str) :
    Option (Json × Str) → Option (List (Str × Json) × Str)
  | some (v, r3) => pkr ((k, v) :: acc) r3
  | none => none

/-- After a parsed member key: require a colon, parse the value with `pv`,
and continue the member loop. -/
def kvKeyCont (pv : Str → Option (Json × Str))
    (pkr : List (Str × Json) → Str → Option (List (Str × Json) × Str))
    (acc : List (Str × Json)) :
    Option (Str × Str) → Option (List (Str × Json) × Str)
  | some (k, r1) =>
    (match skipWs r1 with
    | ':' :: r2 => kvValCont pkr acc k (pv r2)
    | _ => none)
  | none => none

mutual

/-- Parse a JSON value, skipping leading whitespace.  `fuel` bounds the
recursion depth; `pyLoads` supplies enough fuel for any input.  Dispatch is
on the first character, as in CPython's scanner. -/
def parseValue : Nat → Str → Option (Json × Str)
  | 0, _ => none
  | fuel + 1, s =>
    match skipWs s with
    | [] => none
    | c :: r =>
      if c = '{' then objResult (parseKVs fuel r)
      else if c = '[' then parseElems fuel r
      else if c = '"' then strResult (parseStringBody (r.length + 1) r)
      else if c = 't' then parseTrueTail r
      else if c = 'f' then parseFalseTail r
      else if c = 'n' then parseNullTail r
      else parseNumber (c :: r)

/-- Parse the elements of a JSON array (after the opening bracket). -/
def parseElems : Nat → Str → Option (Json × Str)
  | 0, _ => none
  | fuel + 1, s =>
    match skipWs s with
    | [] => none
    | c :: r =>
      if c = ']' then some (Json.arr [], r)
      else elemCont (parseElemsRest fuel) [] (parseValue fuel (c :: r))

/-- Parse the remaining ", value"* elements of a JSON array, accumulating
the elements parsed so far in reverse order. -/
def parseElemsRest : Nat → List Json → Str → Option (Json × Str)
  | 0, _, _ => none
  | fuel + 1, acc, s =>
    match skipWs s with
    | [] => none
    | c :: r =>
      if c = ']' then some (Json.arr acc.reverse, r)
      else if c = ',' then elemCont (parseElemsRest fuel) acc (parseValue fuel r)
      else none

/-- Parse the members of a JSON object (after the opening brace), returning
the raw key-value pairs in source order (as CPython's decoder builds its
pairs list before turning it into a dict). -/
def parseKVs : Nat → Str → Option (List (Str × Json) × Str)
  | 0, _ => none
  | fuel + 1, s =>
    match skipWs s with
    | [] => none
    | c :: r =>
      if c = '}' then some ([], r)
      else if c = '"' then
        kvKeyCont (parseValue fuel) (parseKVsRest fuel) [] (parseStringBody (r.length + 1) r)
      else none

/-- Parse the remaining ", key: value"* members of a JSON object. -/
def parseKVsRest : Nat → List (Str × Json) → Str → Option (List (Str × Json) × Str)
  | 0, _, _ => none
  | fuel + 1, acc, s =>
    match skipWs s with
    | [] => none
    | c :: r =>
      if c = '}' then some (acc.reverse, r)
      else if c = ',' then
        match skipWs r with
        | '"' :: r1 =>
          kvKeyCont (parseValue fuel) (parseKVsRest fuel) acc (parseStringBody (r1.length + 1) r1)
        | _ => none
      else none

end

/-- Python `json.loads`: decode a full JSON document, requiring only
whitespace after the value.  `none` models a raised decoding error. -/
def pyLoads (s : Str) : Option Json :=
  match parseValue (s.length + 1) s with
  | some (v, rest) => if (skipWs rest).isEmpty then some v else none
  | none => none

/-- Embedding of app.py `safe_parse_json` (lines 80-89): strip the text,
slice from the first brace to the last closing brace when both occur, then
attempt JSON decoding; any decoding error is caught and becomes `none`. -/
def safe_parse_json (text : Str) : Option Json :=
  pyLoads
    (if pyFind (pyStrip text) '{' ≠ -1 ∧ pyRfind (pyStrip text) '}' ≠ -1 then
      pySlice (pyStrip text) (pyFind (pyStrip text) '{') (pyRfind (pyStrip text) '}' + 1)
    else pyStrip text)

/-- The fixed fallback EvaluationResult substituted by `evaluate_resume`
(app.py lines 142-148). -/
def fallbackResult : Json :=
  Json.obj
    [("overall_score".toList, Json.num 0),
     ("sub_scores".toList, Json.obj []),
     ("summary".toList, Json.str "⚠ Could not parse AI response or API error occurred.".toList),
     ("skills".toList, Json.obj
       [("matched".toList, Json.arr []),
        ("missing".toList, Json.arr []),
        ("recommended_improvements".toList, Json.arr [])])]

/-- Embedding of app.py `evaluate_resume` (lines 103-150).  The outcome of
the external model call (`model.generate_content(prompt).text`, which may
raise) is taken as a parameter; the prompt itself only feeds that external
call.  A raised call or parse gives `parsed = None`; any falsy parse result
is then replaced by the fallback. -/
def evaluate_resume (callOutcome : Except PyExc Str) : Json :=
  let parsed : Option Json :=
    match callOutcome with
    | .error _ => none
    | .ok t => safe_parse_json t
  match parsed with
  | some v => if v.truthy then v else fallbackResult
  | none => fallbackResult

/-! JSON serialization: Python `json.dumps` with its default settings
(`ensure_ascii=True`, separators ", " and ": "). -/

/-- Lowercase hexadecimal digit character. -/
def hexDigitChar (n : Nat) : Char :=
  Char.ofNat (if n < 10 then 48 + n else 87 + n)

/-- Four-digit lowercase hexadecimal rendering, as in a `\uXXXX` escape. -/
def hex4 (n : Nat) : Str :=
  [hexDigitChar (n / 4096 % 16), hexDigitChar (n / 256 % 16),
   hexDigitChar (n / 16 % 16), hexDigitChar (n % 16)]

/-- How `json.dumps` renders one string character with `ensure_ascii=True`:
short escapes for the common controls, backslash and quote; printable ASCII
verbatim; everything else as `\uXXXX` (a surrogate pair beyond the BMP). -/
def escapeChar (c : Char) : Str :=
  if c = '\\' then ['\\', '\\']
  else if c = '"' then ['\\', '"']
  else if c = '\x08' then ['\\', 'b']
  else if c = '\t' then ['\\', 't']
  else if c = '\n' then ['\\', 'n']
  else if c = '\x0c' then ['\\', 'f']
  else if c = '\r' then ['\\', 'r']
  else if c.toNat < 0x20 then '\\' :: 'u' :: hex4 c.toNat
  else if c.toNat ≤ 0x7e then [c]
  else if c.toNat < 0x10000 then '\\' :: 'u' :: hex4 c.toNat
  else
    ('\\' :: 'u' :: hex4 (0xD800 + (c.toNat - 0x10000) / 0x400)) ++
    ('\\' :: 'u' :: hex4 (0xDC00 + (c.toNat - 0x10000) % 0x400))

/-- Escape a whole string body. -/
def escapeStr (s : Str) : Str :=
  (s.map escapeChar).foldr (· ++ ·) []

/-- Decimal rendering of a natural number. -/
def natToStr (n : Nat) : Str :=
  if h : n < 10 then [Char.ofNat (48 + n)]
  else natToStr (n / 10) ++ [Char.ofNat (48 + n % 10)]

/-- Decimal rendering of an integer, as Python prints `int`. -/
def intToStr (n : Int) : Str :=
  if n < 0 then '-' :: natToStr (-n).toNat else natToStr n.toNat

mutual

/-- Python `json.dumps` with default settings. -/
def pyDumps : Json → Str
  | .null => 'n' :: 'u' :: 'l' :: 'l' :: []
  | .bool true => 't' :: 'r' :: 'u' :: 'e' :: []
  | .bool false => 'f' :: 'a' :: 'l' :: 's' :: 'e' :: []
  | .num n => intToStr n
  | .str s => '"' :: escapeStr s ++ ['"']
  | .arr [] => ['[', ']']
  | .arr (x :: xs) => '[' :: (pyDumps x ++ pyDumpsElems xs ++ [']'])
  | .obj [] => ['{', '}']
  | .obj (kv :: kvs) => '{' :: (pyDumpsKV kv ++ pyDumpsKVs kvs ++ ['}'])

/-- Render the ", element"* tail of a JSON array. -/
def pyDumpsElems : List Json → Str
  | [] => []
  | x :: xs => ',' :: ' ' :: (pyDumps x ++ pyDumpsElems xs)

/-- Render one key-value member as `"key": value`. -/
def pyDumpsKV : Str × Json → Str
  | (k, v) => '"' :: escapeStr k ++ '"' :: ':' :: ' ' :: pyDumps v

/-- Render the ", member"* tail of a JSON object. -/
def pyDumpsKVs : List (Str × Json) → Str
  | [] => []
  | kv :: kvs => ',' :: ' ' :: (pyDumpsKV kv ++ pyDumpsKVs kvs)

end

/-- No two members of this pair list share a key. -/
def keysNodup : List (Str × Json) → Bool
  | [] => true
  | kv :: kvs => !(kvs.any (fun kv2 => kv2.1 == kv.1)) && keysNodup kvs

mutual

/-- A Python-representable JSON value: every object has distinct keys
(a Python `dict` cannot hold duplicates). -/
def jsonWF : Json → Bool
  | .null => true
  | .bool _ => true
  | .num _ => true
  | .str _ => true
  | .arr xs => jsonWFList xs
  | .obj kvs => keysNodup kvs && jsonWFKVs kvs

/-- All elements are Python-representable. -/
def jsonWFList : List Json → Bool
  | [] => true
  | x :: xs => jsonWF x && jsonWFList xs

/-- All member values are Python-representable. -/
def jsonWFKVs : List (Str × Json) → Bool
  | [] => true
  | kv :: kvs => jsonWF kv.2 && jsonWFKVs kvs

end

/-! The record store (src/db.py and the inline SQL in src/app.py).

Both modules target the same single-file SQLite database.  The
`evaluations` table is modelled as a list of rows in insertion order;
`AUTOINCREMENT` ids are modelled by assigning one more than the maximum
id present.  app.py inserts carry the uploader's user id; db.py's
`save_evaluation` leaves that column NULL. -/

/-- A row of the `evaluations` table. -/
structure EvalRow where
  id : Nat
  user_id : Option Nat
  filename : Str
  jd : Str
  result_json : Str
deriving Repr, DecidableEq

/-- The next `AUTOINCREMENT` id for a table. -/
def nextId (ids : List Nat) : Nat :=
  ids.foldr max 0 + 1

/-- Embedding of app.py `save_evaluation` (lines 62-67): insert one new row;
no existing row is touched. -/
def save_evaluation (tbl : List EvalRow) (user_id : Nat) (filename jd result_json : Str) :
    List EvalRow :=
  tbl ++ [{ id := nextId (tbl.map EvalRow.id), user_id := some user_id,
            filename := filename, jd := jd, result_json := result_json }]

/-- Embedding of db.py `save_evaluation` (lines 37-43): insert with no user
column. -/
def db_save_evaluation (tbl : List EvalRow) (filename jd result_json : Str) : List EvalRow :=
  tbl ++ [{ id := nextId (tbl.map EvalRow.id), user_id := none,
            filename := filename, jd := jd, result_json := result_json }]

/-- The row with the greatest id, if any (`ORDER BY id DESC LIMIT 1`). -/
def maxIdRow (rows : List EvalRow) : Option EvalRow :=
  rows.foldl
    (fun acc r =>
      match acc with
      | none => some r
      | some a => if a.id < r.id then some r else some a)
    none

/-- Embedding of db.py `fetch_latest_by_filename` (lines 52-59): the
`result_json` of the highest-id row whose filename matches, or `None`.
The query filters by filename only; db.py's schema has no user column. -/
def fetch_latest_by_filename (tbl : List EvalRow) (filename : Str) : Option Str :=
  (maxIdRow (tbl.filter (fun r => r.filename == filename))).map EvalRow.result_json

/-- Embedding of the inline query of app.py `download` (lines 236-241):
the `result_json` of the highest-id row matching both the current user id
and the filename, or `None` (the route then answers 404). -/
def download_query (tbl : List EvalRow) (user_id : Nat) (filename : Str) : Option Str :=
  (maxIdRow (tbl.filter (fun r => r.user_id == some user_id && r.filename == filename))).map
    EvalRow.result_json

/-! User accounts.  app.py (register/login, lines 272-299) keeps its own
`users` schema with a plaintext `password` column; db.py (lines 64-109)
keeps a `password_hash` column filled through the external credential
hasher.  The hasher (`generate_password_hash` / `check_password_hash`,
werkzeug) is external and taken as a parameter. -/

/-- A row of app.py's `users` table. -/
structure AppUserRow where
  id : Nat
  username : Str
  password : Str
deriving Repr, DecidableEq

/-- Embedding of app.py `register` (lines 287-299): strip the form fields,
insert the username and the submitted password string; a UNIQUE collision
raises `IntegrityError`, modelled as `none`. -/
def app_register (tbl : List AppUserRow) (username password : Str) :
    Option (List AppUserRow) :=
  let u := pyStrip username
  let p := pyStrip password
  if tbl.any (fun r => r.username == u) then none
  else some (tbl ++ [{ id := nextId (tbl.map AppUserRow.id), username := u, password := p }])

/-- Embedding of app.py `login` (lines 272-285): `SELECT ... WHERE
username=? AND password=?` — a direct equality comparison on the stored
password column. -/
def app_login (tbl : List AppUserRow) (username password : Str) : Option AppUserRow :=
  tbl.find? (fun r => r.username == pyStrip username && r.password == pyStrip password)

/-- A row of db.py's `users` table. -/
structure DbUserRow where
  id : Nat
  username : Str
  password_hash : Str
  fullname : Option Str
  email : Option Str
deriving Repr, DecidableEq

/-- Embedding of db.py `create_user` (lines 64-78): hash the password with
the external hasher `gph` (one concrete draw of its salted output) and
insert; `false` on a username collision, which leaves the table unchanged. -/
def create_user (gph : Str → Str) (tbl : List DbUserRow) (username password : Str)
    (fullname email : Option Str) : Bool × List DbUserRow :=
  if tbl.any (fun r => r.username == username) then (false, tbl)
  else
    (true,
     tbl ++ [{ id := nextId (tbl.map DbUserRow.id), username := username,
               password_hash := gph password, fullname := fullname, email := email }])

/-- Embedding of db.py `find_user_by_username` (lines 92-101). -/
def find_user_by_username (tbl : List DbUserRow) (username : Str) : Option DbUserRow :=
  tbl.find? (fun r => r.username == username)

/-- Embedding of db.py `verify_user_password` (lines 103-109): `False` when
the user is missing, else the external `check_password_hash` verdict `cph`
on the stored hash and the submitted password. -/
def verify_user_password (cph : Str → Str → Bool) (tbl : List DbUserRow)
    (username password : Str) : Bool :=
  match find_user_by_username tbl username with
  | none => false
  | some row => cph row.password_hash password

/-! The report builder (app.py `generate_pdf_report`, lines 153-201).
The reportlab layout calls are the external document renderer; the code's
own contribution is selecting the values plugged into the fixed template,
which is what the `Report` structure captures: the info block renders
the filename value and then the overall value followed by the literal
"/10"; the criteria table has a fixed header row and the four rows below;
the summary block renders the summary value. -/

/-- The data `generate_pdf_report` feeds into the fixed document layout. -/
structure Report where
  filenameVal : Json
  overallVal : Json
  rows : List (Str × Json)
  summaryVal : Json
deriving Repr

/-- Embedding of app.py `generate_pdf_report` (lines 153-201): every field
access defaults via `.get`; `.get` itself requires a dict receiver, so a
non-dict `result`, or a present non-dict `sub_scores` value, raises
`AttributeError` at the corresponding access. -/
def generate_pdf_report (result : Json) : Except PyExc Report :=
  match result with
  | .obj kvs =>
    match (assocGet kvs "sub_scores".toList).getD (Json.obj []) with
    | .obj skvs =>
      .ok
        { filenameVal := (assocGet kvs "filename".toList).getD (Json.str "N/A".toList)
          overallVal := (assocGet kvs "overall_score".toList).getD (Json.str "N/A".toList)
          rows :=
            [("Skills".toList, (assocGet skvs "skills".toList).getD (Json.str "N/A".toList)),
             ("Experience".toList,
              (assocGet skvs "experience".toList).getD (Json.str "N/A".toList)),
             ("Education".toList,
              (assocGet skvs "education".toList).getD (Json.str "N/A".toList)),
             ("Domain Knowledge".toList,
              (assocGet skvs "domain_knowledge".toList).getD (Json.str "N/A".toList))]
          summaryVal :=
            (assocGet kvs "summary".toList).getD (Json.str "No summary available.".toList) }
    | _ => .error "AttributeError"
  | _ => .error "AttributeError"

/-! The ranking layer (app.py `index`, lines 229-231):
`results.sort(key=lambda r: r.get("overall_score", 0), reverse=True)` —
a stable sort on the defaulted score, descending — then
`top_score = results[0]["overall_score"] if results else 0`. -/

/-- The sort key Python computes for a result, when it computes one without
raising: `r.get` requires a dict, and a present non-integer score would not
compare against integers.  A missing key defaults to 0. -/
def keyOf (j : Json) : Option Int :=
  match j with
  | .obj kvs =>
    match assocGet kvs "overall_score".toList with
    | none => some 0
    | some (.num n) => some n
    | some _ => none
  | _ => none

/-- The defaulted sort key (meaningful under `keyOf ≠ none`). -/
def keyD (j : Json) : Int := (keyOf j).getD 0

/-- Embedding of the `results.sort(..., reverse=True)` call: a stable sort,
descending on the defaulted score.  A result on which Python's key or
comparison would raise (non-dict, or a non-integer score) is modelled as a
`TypeError`. -/
def sortResults (l : List Json) : Except PyExc (List Json) :=
  if l.all (fun r => (keyOf r).isSome) then
    .ok (l.mergeSort (fun a b => keyD b ≤ keyD a))
  else .error "TypeError"

/-- Embedding of `results[0]["overall_score"] if results else 0`
(app.py line 230): subscripting may raise on a non-dict or a missing key. -/
def topScore (sorted : List Json) : Except PyExc Json :=
  match sorted with
  | [] => .ok (Json.num 0)
  | r :: _ =>
    match r with
    | .obj kvs =>
      match assocGet kvs "overall_score".toList with
      | some v => .ok v
      | none => .error "KeyError"
    | _ => .error "TypeError"

/-! Batch evaluation (app.py `index`, lines 210-232).  Uploaded files,
their extracted text and the model call are external; each upload carries
the filename the browser submitted and the outcome of the model call on
its extracted text.  A Flask `FileStorage` is truthy exactly when its
filename is non-empty.  `save_evaluation`'s state effect is modelled
separately above; the loop's visible result is the list of analyses. -/

/-- One submitted file: its raw filename and the external model-call
outcome for its extracted text. -/
structure Upload where
  filename : Str
  callOutcome : Except PyExc Str

/-- Python `c.lower()` on the characters in scope (ASCII). -/
def lowerStr (s : Str) : Str := s.map Char.toLower

/-- Embedding of app.py `allowed_file` (lines 92-93):
`'.' in filename and filename.rsplit('.', 1)[1].lower() in ALLOWED_EXTENSIONS`.
The extension set comes from config.py, which is not part of the sources in
scope, so it is a parameter. -/
def allowed_file (allowedExts : List Str) (filename : Str) : Bool :=
  filename.contains '.' &&
    allowedExts.contains (lowerStr (filename.reverse.takeWhile (fun c => c ≠ '.')).reverse)

/-- An upload enters the loop body iff `file and allowed_file(file.filename)`. -/
def acceptedUpload (allowedExts : List Str) (u : Upload) : Bool :=
  !u.filename.isEmpty && allowed_file allowedExts u.filename

/-- Python `analysis["filename"] = filename`: dict item assignment; raises
`TypeError` when the evaluation result is not a dict. -/
def pySetItem (j : Json) (k : Str) (v : Json) : Except PyExc Json :=
  match j with
  | .obj kvs => .ok (Json.obj (objInsert kvs k v))
  | _ => .error "TypeError"

/-- One iteration of the per-file loop of app.py `index` (lines 219-228):
skip a falsy or disallowed file; evaluate an accepted one, tag the analysis
with its sanitized filename and append it to the results. -/
def batchStep (allowedExts : List Str) (secure : Str → Str) :
    Except PyExc (List Json) → Upload → Except PyExc (List Json)
  | .error e, _ => .error e
  | .ok rs, u =>
    if acceptedUpload allowedExts u then
      match pySetItem (evaluate_resume u.callOutcome) (S "filename")
          (Json.str (secure u.filename)) with
      | .ok analysis1 => .ok (rs ++ [analysis1])
      | .error e => .error e
    else .ok rs

/-- The per-file loop of app.py `index`: the analyses collected in
submission order (`secure_filename` is external, parameter `secure`). -/
def batchResults (allowedExts : List Str) (secure : Str → Str) (uploads : List Upload) :
    Except PyExc (List Json) :=
  uploads.foldl (batchStep allowedExts secure) (.ok [])

/-- What the POST branch of app.py `index` (lines 213-231) presents. -/
inductive IndexView where
  | errorPage
  | results (rs : List Json) (top : Json)

/-- Embedding of the POST branch of app.py `index`: reject an empty job
description or an empty upload list with the error page, else evaluate the
batch, sort it and take the top score. -/
def index_post (allowedExts : List Str) (secure : Str → Str) (jd : Str)
    (uploads : List Upload) : Except PyExc IndexView :=
  if (pyStrip jd).isEmpty || uploads.isEmpty then .ok IndexView.errorPage
  else
    match batchResults allowedExts secure uploads with
    | .error e => .error e
    | .ok rs =>
      match sortResults rs with
      | .error e => .error e
      | .ok sorted =>
        match topScore sorted with
        | .error e => .error e
        | .ok top => .ok (IndexView.results sorted top)

/-! Definitions taken from the specification's words, for comparison with
the code.  They are clearly separated from the source embeddings above. -/

/-- The four fixed sub-score criterion names of the data model. -/
def subScoreNames : List Str :=
  [S "skills", S "experience", S "education", S "domain_knowledge"]

/-- An integer score in 0-10. -/
def isIntScore (j : Json) : Bool :=
  match j with
  | .num n => 0 ≤ n && n ≤ 10
  | _ => false

/-- A JSON list of strings. -/
def isStrList (j : Json) : Bool :=
  match j with
  | .arr xs => xs.all (fun x => match x with | .str _ => true | _ => false)
  | _ => false

/-- Stated from the spec's words (data-model invariant, claim C2): a fully
shaped EvaluationResult — `overall_score` an integer 0-10, `sub_scores`
mapping only the four fixed criterion names to integers 0-10, `summary` a
string, and `skills` carrying the three string-list fields. -/
def isFullyShaped (j : Json) : Bool :=
  match j with
  | .obj kvs =>
    (match assocGet kvs (S "overall_score") with
     | some s => isIntScore s
     | none => false) &&
    (match assocGet kvs (S "sub_scores") with
     | some (.obj skvs) => skvs.all (fun kv => subScoreNames.contains kv.1 && isIntScore kv.2)
     | _ => false) &&
    (match assocGet kvs (S "summary") with
     | some (.str _) => true
     | _ => false) &&
    (match assocGet kvs (S "skills") with
     | some (.obj skl) =>
       (match assocGet skl (S "matched") with | some v => isStrList v | none => false) &&
       (match assocGet skl (S "missing") with | some v => isStrList v | none => false) &&
       (match assocGet skl (S "recommended_improvements") with
        | some v => isStrList v
        | none => false)
     | _ => false)
  | _ => false

/-- Stated from the spec's words (claim C3): locate the first brace and the
last closing brace in the raw response text and slice that span; outside
that case the text is left as it is. -/
def specBraceSpan (t : Str) : Str :=
  match t.findIdx? (fun c => c == '{'), t.reverse.findIdx? (fun c => c == '}') with
  | some i, some j => (t.take (t.length - j)).drop i
  | _, _ => t

/-- Stated from the spec's words (claim C5): select the highest-id row
matching both the user key and the filename key, absent when no row
matches. -/
def specSelectLatestBoth (tbl : List EvalRow) (user_id : Nat) (filename : Str) : Option Str :=
  (maxIdRow (tbl.filter (fun r => r.user_id == some user_id && r.filename == filename))).map
    EvalRow.result_json

/-- The field names of the EvaluationResult data model (claim C9), in the
order the engine's fallback and filename tagging produce them. -/
def dataModelFields : List Str :=
  [S "overall_score", S "sub_scores", S "summary", S "skills", S "filename"]

/-- Whether a decoded JSON value is an object (a Python dict). -/
def isObjB : Json → Bool
  | .obj _ => true
  | _ => false

/-! Claim theorems. -/

/-- C2 counterexample: the model response text decoding to the truthy
object with the single key "foo" is returned by `evaluate_resume`
unchanged, and it is not fully shaped — it has no overall_score at all —
so consumers can receive a partially-shaped result. -/
theorem c2_counterexample :
    evaluate_resume (Except.ok (S "\x7b\"foo\": 1\x7d")) =
      Json.obj [(S "foo", Json.num 1)] ∧
    isFullyShaped (evaluate_resume (Except.ok (S "\x7b\"foo\": 1\x7d"))) = false := by
  exact ⟨rfl, rfl⟩

/-- C2 amended: the fixed fallback substituted on every failure is fully
shaped, and every result of `evaluate_resume` is either that fallback or
the decoded model value returned unchanged with no shape validation — so
fully-shapedness of a success result depends on the model's compliance
rather than being enforced by the engine. -/
theorem c2_shape_amended :
    isFullyShaped fallbackResult = true ∧
    ∀ outcome : Except PyExc Str,
      evaluate_resume outcome = fallbackResult ∨
      ∃ t v, outcome = Except.ok t ∧ safe_parse_json t = some v ∧ v.truthy = true ∧
        evaluate_resume outcome = v := by
  refine ⟨by decide, ?_⟩
  intro outcome
  cases outcome with
  | error e => exact Or.inl rfl
  | ok t =>
    cases hp : safe_parse_json t with
    | none =>
      left
      simp [evaluate_resume, hp]
    | some v =>
      cases ht : v.truthy with
      | false =>
        left
        simp [evaluate_resume, hp, ht]
      | true =>
        right
        exact ⟨t, v, rfl, hp, ht, by simp [evaluate_resume, hp, ht]⟩

/-- C10: `evaluate_resume` substitutes the fallback exactly when the call
raised, decoding failed, or the decoded value is falsy — so the empty
object, 0, the empty string, the empty array and null are all replaced by
the full fallback, while truthy decoded values, object or not, are
returned unchanged. -/
theorem c10_fallback_exactly_on_falsy :
    (∀ e : PyExc, evaluate_resume (Except.error e) = fallbackResult) ∧
    (∀ t v, safe_parse_json t = some v → v.truthy = true →
      evaluate_resume (Except.ok t) = v) ∧
    (∀ t v, safe_parse_json t = some v → v.truthy = false →
      evaluate_resume (Except.ok t) = fallbackResult) ∧
    (∀ t, safe_parse_json t = none → evaluate_resume (Except.ok t) = fallbackResult) ∧
    evaluate_resume (Except.ok (S "{}")) = fallbackResult ∧
    evaluate_resume (Except.ok (S "0")) = fallbackResult ∧
    evaluate_resume (Except.ok (S "\"\"")) = fallbackResult ∧
    evaluate_resume (Except.ok (S "[]")) = fallbackResult ∧
    evaluate_resume (Except.ok (S "null")) = fallbackResult ∧
    evaluate_resume (Except.ok (S "[1]")) = Json.arr [Json.num 1] ∧
    evaluate_resume (Except.ok (S "5")) = Json.num 5 := by
  refine ⟨fun e => rfl, ?_, ?_, ?_, rfl, rfl, rfl, rfl, rfl, rfl, rfl⟩
  · intro t v hp ht
    simp [evaluate_resume, hp, ht]
  · intro t v hp ht
    simp [evaluate_resume, hp, ht]
  · intro t hp
    simp [evaluate_resume, hp]

/-- C10 witness: the truthy-return and falsy-substitution branches applied
at the concrete decodes of "[1]" and of the empty object text. -/
theorem c10_witness :
    evaluate_resume (Except.ok (S "[1]")) = Json.arr [Json.num 1] ∧
    evaluate_resume (Except.ok (S "{}")) = fallbackResult := by
  exact ⟨c10_fallback_exactly_on_falsy.2.1 (S "[1]") (Json.arr [Json.num 1])
      rfl rfl,
    c10_fallback_exactly_on_falsy.2.2.1 (S "{}") (Json.obj []) rfl rfl⟩

/-- C3 counterexample: the model response "5" decodes to the JSON number 5
— a non-object — yet `evaluate_resume` returns it unchanged instead of the
claimed fixed fallback. -/
theorem c3_counterexample :
    safe_parse_json (S "5") = some (Json.num 5) ∧
    isObjB (Json.num 5) = false ∧
    evaluate_resume (Except.ok (S "5")) = Json.num 5 ∧
    evaluate_resume (Except.ok (S "5")) ≠ fallbackResult := by
  refine ⟨rfl, rfl, rfl, ?_⟩
  intro h
  rw [show evaluate_resume (Except.ok (S "5")) = Json.num 5 from rfl] at h
  unfold fallbackResult at h
  exact Json.noConfusion h

/-- C6: `verify_user_password` returns `false` — the identical value, not
an error — both when the username does not exist and when it exists but
the hasher rejects the password, so the two cases are indistinguishable
from the result.  `cph` is the external `check_password_hash`. -/
theorem c6_verify_credentials_false_indistinguishable
    (cph : Str → Str → Bool) (tbl1 tbl2 : List DbUserRow) (u1 u2 p1 p2 : Str)
    (h1 : find_user_by_username tbl1 u1 = none)
    (h2 : ∀ row, find_user_by_username tbl2 u2 = some row → cph row.password_hash p2 = false) :
    verify_user_password cph tbl1 u1 p1 = false ∧
    verify_user_password cph tbl2 u2 p2 = false ∧
    verify_user_password cph tbl1 u1 p1 = verify_user_password cph tbl2 u2 p2 := by
  have e1 : verify_user_password cph tbl1 u1 p1 = false := by
    unfold verify_user_password
    rw [h1]
  have e2 : verify_user_password cph tbl2 u2 p2 = false := by
    unfold verify_user_password
    cases hf : find_user_by_username tbl2 u2 with
    | none => rfl
    | some row => exact h2 row hf
  exact ⟨e1, e2, by rw [e1, e2]⟩

/-- C6 witness: a concrete store holding only the user "bob" with stored
hash "H(pw)", a checker accepting exactly the matching tag, an unknown
username "alice" and a wrong password for "bob". -/
theorem c6_witness :
    let cph : Str → Str → Bool := fun h p => h == 'H' :: p
    let tbl : List DbUserRow := [⟨1, S "bob", 'H' :: S "pw", none, none⟩]
    verify_user_password cph tbl (S "alice") (S "pw") = false ∧
    verify_user_password cph tbl (S "bob") (S "wrong") = false ∧
    verify_user_password cph tbl (S "alice") (S "pw") =
      verify_user_password cph tbl (S "bob") (S "wrong") := by
  intro cph tbl
  exact c6_verify_credentials_false_indistinguishable
    (fun h p => h == 'H' :: p) [⟨1, S "bob", 'H' :: S "pw", none, none⟩]
    [⟨1, S "bob", 'H' :: S "pw", none, none⟩] (S "alice") (S "bob") (S "pw") (S "wrong")
    (by decide)
    (by
      intro row hrow
      have h : some (⟨1, S "bob", 'H' :: S "pw", none, none⟩ : DbUserRow) = some row := hrow
      cases h
      decide)

/-- C1: contrary to the claimed invariant, the Flask registration route
stores the submitted password string itself, and the login route matches it
by direct SQL equality: registering "alice"/"hunter2" through app.py leaves
a row whose stored credential is exactly the plaintext "hunter2", on which
login succeeds with no hashing primitive involved.  (db.py's `create_user`
and `verify_user_password` do hash, but app.py never calls them.) -/
theorem c1_app_register_stores_plaintext :
    app_register [] (S "alice") (S "hunter2") =
      some [⟨1, S "alice", S "hunter2"⟩] ∧
    (⟨1, S "alice", S "hunter2"⟩ : AppUserRow).password = S "hunter2" ∧
    app_login [⟨1, S "alice", S "hunter2"⟩] (S "alice") (S "hunter2") =
      some ⟨1, S "alice", S "hunter2"⟩ := by
  decide

/-! Helper lemmas about `maxIdRow` (the `ORDER BY id DESC LIMIT 1` model). -/

/-- The step function folded by `maxIdRow`. -/
def maxIdStep (acc : Option EvalRow) (r : EvalRow) : Option EvalRow :=
  match acc with
  | none => some r
  | some a => if a.id < r.id then some r else some a

theorem maxIdStep_none (r : EvalRow) : maxIdStep none r = some r := rfl

theorem maxIdStep_some (a r : EvalRow) :
    maxIdStep (some a) r = if a.id < r.id then some r else some a := rfl

theorem maxIdRow_eq_foldl (rows : List EvalRow) :
    maxIdRow rows = rows.foldl maxIdStep none := by
  unfold maxIdRow
  congr 1

theorem maxIdFold_mem (rows : List EvalRow) :
    ∀ (acc : Option EvalRow) (r : EvalRow), rows.foldl maxIdStep acc = some r →
      acc = some r ∨ r ∈ rows := by
  induction rows with
  | nil => intro acc r h; exact Or.inl h
  | cons x rows ih =>
    intro acc r h
    simp only [List.foldl_cons] at h
    rcases ih (maxIdStep acc x) r h with h1 | h1
    · cases acc with
      | none =>
        rw [maxIdStep_none] at h1
        cases h1
        exact Or.inr (List.mem_cons_self x rows)
      | some a =>
        rw [maxIdStep_some] at h1
        by_cases hlt : a.id < x.id
        · rw [if_pos hlt] at h1
          cases h1
          exact Or.inr (List.mem_cons_self x rows)
        · rw [if_neg hlt] at h1
          exact Or.inl h1
    · exact Or.inr (List.mem_cons_of_mem x h1)

theorem maxIdFold_ge (rows : List EvalRow) :
    ∀ (acc : Option EvalRow) (r : EvalRow), rows.foldl maxIdStep acc = some r →
      (∀ a, acc = some a → a.id ≤ r.id) ∧ ∀ x ∈ rows, x.id ≤ r.id := by
  induction rows with
  | nil =>
    intro acc r h
    refine ⟨fun a ha => ?_, by simp⟩
    rw [ha] at h
    cases h
    exact Nat.le_refl _
  | cons x rows ih =>
    intro acc r h
    simp only [List.foldl_cons] at h
    have hstep := ih (maxIdStep acc x) r h
    constructor
    · intro a ha
      subst ha
      have hx := hstep.1
      by_cases hlt : a.id < x.id
      · have := hx x (by rw [maxIdStep_some, if_pos hlt])
        omega
      · exact hx a (by rw [maxIdStep_some, if_neg hlt])
    · intro y hy
      rcases List.mem_cons.mp hy with rfl | hy2
      · have hx := hstep.1
        cases acc with
        | none => exact hx y rfl
        | some a =>
          by_cases hlt : a.id < y.id
          · exact hx y (by rw [maxIdStep_some, if_pos hlt])
          · have := hx a (by rw [maxIdStep_some, if_neg hlt])
            omega
      · exact hstep.2 y hy2

theorem maxIdFold_some (rows : List EvalRow) :
    ∀ acc : Option EvalRow, acc ≠ none ∨ rows ≠ [] →
      rows.foldl maxIdStep acc ≠ none := by
  induction rows with
  | nil =>
    intro acc h
    rcases h with h | h
    · simpa using h
    · simp at h
  | cons x rows ih =>
    intro acc _
    simp only [List.foldl_cons]
    apply ih
    left
    cases acc with
    | none => simp [maxIdStep_none]
    | some a =>
      rw [maxIdStep_some]
      by_cases hlt : a.id < x.id
      · rw [if_pos hlt]; simp
      · rw [if_neg hlt]; simp

theorem selectMax_none (tbl : List EvalRow) (p : EvalRow → Bool)
    (h : ∀ r ∈ tbl, p r = false) :
    (maxIdRow (tbl.filter p)).map EvalRow.result_json = none := by
  have : tbl.filter p = [] := by
    rw [List.filter_eq_nil_iff]
    intro a ha
    simp [h a ha]
  rw [this]
  rfl

theorem selectMax_spec (tbl : List EvalRow) (p : EvalRow → Bool) (s : Str)
    (h : (maxIdRow (tbl.filter p)).map EvalRow.result_json = some s) :
    ∃ r ∈ tbl, p r = true ∧ r.result_json = s ∧
      ∀ r2 ∈ tbl, p r2 = true → r2.id ≤ r.id := by
  rcases Option.map_eq_some'.mp h with ⟨r, hr, hs⟩
  rw [maxIdRow_eq_foldl] at hr
  have hmem := maxIdFold_mem _ _ _ hr
  simp only [reduceCtorEq, false_or] at hmem
  have hge := (maxIdFold_ge _ _ _ hr).2
  rcases List.mem_filter.mp hmem with ⟨hrtbl, hrp⟩
  exact ⟨r, hrtbl, hrp, hs, fun r2 h2 hp2 => hge r2 (List.mem_filter.mpr ⟨h2, hp2⟩)⟩

theorem selectMax_last (tbl : List EvalRow) (p : EvalRow → Bool) (rowB : EvalRow)
    (hp : p rowB = true) (hlt : ∀ r ∈ tbl, r.id < rowB.id) :
    (maxIdRow ((tbl ++ [rowB]).filter p)).map EvalRow.result_json =
      some rowB.result_json := by
  have hflt : (tbl ++ [rowB]).filter p = tbl.filter p ++ [rowB] := by
    rw [List.filter_append]
    simp [hp]
  rw [hflt]
  have hne : maxIdRow (tbl.filter p ++ [rowB]) ≠ none := by
    rw [maxIdRow_eq_foldl]
    exact maxIdFold_some _ _ (Or.inr (by simp))
  rcases Option.ne_none_iff_exists'.mp hne with ⟨r, hr⟩
  rw [maxIdRow_eq_foldl] at hr
  have hmem := maxIdFold_mem _ _ _ hr
  simp only [reduceCtorEq, false_or] at hmem
  have hge := (maxIdFold_ge _ _ _ hr).2
  have hrB : r = rowB := by
    rcases List.mem_append.mp hmem with hmem2 | hmem2
    · exfalso
      have h1 := hlt r (List.mem_filter.mp hmem2).1
      have h2 := hge rowB (by simp)
      omega
    · simpa using hmem2
  rw [maxIdRow_eq_foldl, hr, hrB]
  rfl

/-- Every id in the table is below the next `AUTOINCREMENT` id. -/
theorem id_lt_nextId (tbl : List EvalRow) (r : EvalRow) (h : r ∈ tbl) :
    r.id < nextId (tbl.map EvalRow.id) := by
  unfold nextId
  have : r.id ≤ (tbl.map EvalRow.id).foldr max 0 := by
    induction tbl with
    | nil => cases h
    | cons x tbl ih =>
      simp only [List.map_cons, List.foldr_cons]
      rcases List.mem_cons.mp h with rfl | h2
      · exact Nat.le_max_left _ _
      · exact Nat.le_trans (ih h2) (Nat.le_max_right _ _)
  omega

/-- C5 counterexample: after user 1 and then user 2 each save a result for
"cv.pdf", `fetch_latest_by_filename` — whose query has no user key at all —
returns user 2's payload "B", while the highest-id row matching BOTH user 1
and the filename holds "A", so the claimed two-key selection is wrong for
user 1. -/
theorem c5_counterexample :
    fetch_latest_by_filename
        (save_evaluation (save_evaluation [] 1 (S "cv.pdf") (S "jd") (S "A"))
          2 (S "cv.pdf") (S "jd") (S "B"))
        (S "cv.pdf") = some (S "B") ∧
    specSelectLatestBoth
        (save_evaluation (save_evaluation [] 1 (S "cv.pdf") (S "jd") (S "A"))
          2 (S "cv.pdf") (S "jd") (S "B"))
        1 (S "cv.pdf") = some (S "A") ∧
    some (S "B") ≠ some (S "A") := by
  refine ⟨by decide, by decide, by decide⟩

/-- C5 amended: `fetch_latest_by_filename` takes no user key — db.py's
query filters by filename alone — and selects the highest-id row among the
filename matches, returning an explicit `None` when no row matches; after
two `save_evaluation` calls for the same filename it returns the second
payload.  The two-key highest-id selection of the original claim is instead
performed by the inline query of the `download` route, which also returns
the second payload after two saves for the same (user, filename). -/
theorem c5_fetch_latest_amended :
    (∀ (tbl : List EvalRow) (fn : Str),
       (∀ r ∈ tbl, r.filename ≠ fn) → fetch_latest_by_filename tbl fn = none) ∧
    (∀ (tbl : List EvalRow) (fn s : Str),
       fetch_latest_by_filename tbl fn = some s →
       ∃ r ∈ tbl, r.filename = fn ∧ r.result_json = s ∧
         ∀ r2 ∈ tbl, r2.filename = fn → r2.id ≤ r.id) ∧
    (∀ (tbl : List EvalRow) (u1 u2 : Nat) (fn jd1 jd2 a b : Str),
       fetch_latest_by_filename
         (save_evaluation (save_evaluation tbl u1 fn jd1 a) u2 fn jd2 b) fn = some b) ∧
    (∀ (tbl : List EvalRow) (uid : Nat) (fn : Str),
       (∀ r ∈ tbl, r.user_id = some uid → r.filename ≠ fn) →
       download_query tbl uid fn = none) ∧
    (∀ (tbl : List EvalRow) (uid : Nat) (fn s : Str),
       download_query tbl uid fn = some s →
       ∃ r ∈ tbl, r.user_id = some uid ∧ r.filename = fn ∧ r.result_json = s ∧
         ∀ r2 ∈ tbl, r2.user_id = some uid → r2.filename = fn → r2.id ≤ r.id) ∧
    (∀ (tbl : List EvalRow) (uid : Nat) (fn jd1 jd2 a b : Str),
       download_query
         (save_evaluation (save_evaluation tbl uid fn jd1 a) uid fn jd2 b) uid fn =
         some b) := by
  refine ⟨?_, ?_, ?_, ?_, ?_, ?_⟩
  · intro tbl fn h
    apply selectMax_none
    intro r hr
    simpa using h r hr
  · intro tbl fn s h
    rcases selectMax_spec tbl _ s h with ⟨r, hrtbl, hrp, hs, hmax⟩
    refine ⟨r, hrtbl, by simpa using hrp, hs, fun r2 h2 hfn => hmax r2 h2 (by simpa using hfn)⟩
  · intro tbl u1 u2 fn jd1 jd2 a b
    unfold fetch_latest_by_filename save_evaluation
    exact selectMax_last _ _ _ (by simp)
      (fun r hr => id_lt_nextId _ r hr)
  · intro tbl uid fn h
    apply selectMax_none
    intro r hr
    by_cases hu : r.user_id = some uid
    · have := h r hr hu
      simp [hu, this]
    · simp [hu]
  · intro tbl uid fn s h
    rcases selectMax_spec tbl _ s h with ⟨r, hrtbl, hrp, hs, hmax⟩
    simp only [Bool.and_eq_true, beq_iff_eq] at hrp
    exact ⟨r, hrtbl, hrp.1, hrp.2, hs,
      fun r2 h2 hu hfn => hmax r2 h2 (by simp [hu, hfn])⟩
  · intro tbl uid fn jd1 jd2 a b
    unfold download_query save_evaluation
    exact selectMax_last _ _ _ (by simp)
      (fun r hr => id_lt_nextId _ r hr)

/-- C5 amended witness: a two-row store for "cv.pdf" saved by users 1 and 2;
the filename-only fetch returns the later payload, the miss cases return
`None`, and the download query for user 1 returns user 1's payload. -/
theorem c5_fetch_latest_amended_witness :
    fetch_latest_by_filename [] (S "cv.pdf") = none ∧
    fetch_latest_by_filename
      (save_evaluation (save_evaluation [] 1 (S "cv.pdf") (S "jd") (S "A"))
        2 (S "cv.pdf") (S "jd") (S "B")) (S "cv.pdf") = some (S "B") ∧
    download_query
      (save_evaluation (save_evaluation [] 1 (S "cv.pdf") (S "jd") (S "A"))
        1 (S "cv.pdf") (S "jd") (S "B")) 1 (S "cv.pdf") = some (S "B") := by
  refine ⟨c5_fetch_latest_amended.1 [] (S "cv.pdf") (by simp),
    c5_fetch_latest_amended.2.2.1 [] 1 2 (S "cv.pdf") (S "jd") (S "jd") (S "A") (S "B"),
    c5_fetch_latest_amended.2.2.2.2.2 [] 1 (S "cv.pdf") (S "jd") (S "jd") (S "A") (S "B")⟩


/-- C8: `generate_pdf_report` succeeds on every dict-shaped result whose
`sub_scores`, when present, is itself a dict — in particular on the
minimally-populated fallback — rendering each of the four fixed criteria
rows with its sub-score value or "N/A" when absent, the overall value that
the info line renders followed by "/10" (defaulting to "N/A"), and the
summary value with the fallback text "No summary available." when absent. -/
theorem c8_build_report_defaults (kvs skvs : List (Str × Json))
    (hsub : assocGet kvs (S "sub_scores") = some (Json.obj skvs) ∨
            (assocGet kvs (S "sub_scores") = none ∧ skvs = [])) :
    generate_pdf_report (Json.obj kvs) = Except.ok
      { filenameVal := (assocGet kvs (S "filename")).getD (Json.str (S "N/A"))
        overallVal := (assocGet kvs (S "overall_score")).getD (Json.str (S "N/A"))
        rows :=
          [(S "Skills", (assocGet skvs (S "skills")).getD (Json.str (S "N/A"))),
           (S "Experience", (assocGet skvs (S "experience")).getD (Json.str (S "N/A"))),
           (S "Education", (assocGet skvs (S "education")).getD (Json.str (S "N/A"))),
           (S "Domain Knowledge",
            (assocGet skvs (S "domain_knowledge")).getD (Json.str (S "N/A")))]
        summaryVal := (assocGet kvs (S "summary")).getD (Json.str (S "No summary available.")) } := by
  rcases hsub with h | ⟨h, rfl⟩
  · have h2 : assocGet kvs "sub_scores".toList = some (Json.obj skvs) := h
    show (match (assocGet kvs "sub_scores".toList).getD (Json.obj []) with
      | Json.obj skvs =>
        Except.ok
          { filenameVal := (assocGet kvs "filename".toList).getD (Json.str "N/A".toList)
            overallVal := (assocGet kvs "overall_score".toList).getD (Json.str "N/A".toList)
            rows :=
              [("Skills".toList, (assocGet skvs "skills".toList).getD (Json.str "N/A".toList)),
                ("Experience".toList, (assocGet skvs "experience".toList).getD (Json.str "N/A".toList)),
                ("Education".toList, (assocGet skvs "education".toList).getD (Json.str "N/A".toList)),
                ("Domain Knowledge".toList, (assocGet skvs "domain_knowledge".toList).getD (Json.str "N/A".toList))]
            summaryVal := (assocGet kvs "summary".toList).getD (Json.str "No summary available.".toList) }
      | _ => Except.error "AttributeError" : Except PyExc Report) = _
    rw [h2]
    rfl
  · have h2 : assocGet kvs "sub_scores".toList = none := h
    show (match (assocGet kvs "sub_scores".toList).getD (Json.obj []) with
      | Json.obj skvs =>
        Except.ok
          { filenameVal := (assocGet kvs "filename".toList).getD (Json.str "N/A".toList)
            overallVal := (assocGet kvs "overall_score".toList).getD (Json.str "N/A".toList)
            rows :=
              [("Skills".toList, (assocGet skvs "skills".toList).getD (Json.str "N/A".toList)),
                ("Experience".toList, (assocGet skvs "experience".toList).getD (Json.str "N/A".toList)),
                ("Education".toList, (assocGet skvs "education".toList).getD (Json.str "N/A".toList)),
                ("Domain Knowledge".toList, (assocGet skvs "domain_knowledge".toList).getD (Json.str "N/A".toList))]
            summaryVal := (assocGet kvs "summary".toList).getD (Json.str "No summary available.".toList) }
      | _ => Except.error "AttributeError" : Except PyExc Report) = _
    rw [h2]
    rfl

/-- C8 witness: the spec's example result with overall score 8, only the
skills sub-score, and summary "Strong fit" renders "N/A" in the three
missing criteria rows and the value 8 ahead of the fixed "/10"; and the
minimally-populated fallback succeeds, all four rows "N/A". -/
theorem c8_build_report_defaults_witness :
    generate_pdf_report
        (Json.obj
          [(S "overall_score", Json.num 8),
           (S "sub_scores", Json.obj [(S "skills", Json.num 9)]),
           (S "summary", Json.str (S "Strong fit"))]) = Except.ok
      { filenameVal := Json.str (S "N/A")
        overallVal := Json.num 8
        rows :=
          [(S "Skills", Json.num 9),
           (S "Experience", Json.str (S "N/A")),
           (S "Education", Json.str (S "N/A")),
           (S "Domain Knowledge", Json.str (S "N/A"))]
        summaryVal := Json.str (S "Strong fit") } ∧
    generate_pdf_report fallbackResult = Except.ok
      { filenameVal := Json.str (S "N/A")
        overallVal := Json.num 0
        rows :=
          [(S "Skills", Json.str (S "N/A")),
           (S "Experience", Json.str (S "N/A")),
           (S "Education", Json.str (S "N/A")),
           (S "Domain Knowledge", Json.str (S "N/A"))]
        summaryVal := Json.str (S "⚠ Could not parse AI response or API error occurred.") } := by
  constructor
  · exact c8_build_report_defaults
      [(S "overall_score", Json.num 8),
       (S "sub_scores", Json.obj [(S "skills", Json.num 9)]),
       (S "summary", Json.str (S "Strong fit"))]
      [(S "skills", Json.num 9)] (Or.inl rfl)
  · exact c8_build_report_defaults
      [(S "overall_score", Json.num 0),
       (S "sub_scores", Json.obj []),
       (S "summary", Json.str (S "⚠ Could not parse AI response or API error occurred.")),
       (S "skills", Json.obj
         [(S "matched", Json.arr []),
          (S "missing", Json.arr []),
          (S "recommended_improvements", Json.arr [])])]
      [] (Or.inl rfl)

/-- The value an accepted upload contributes to the batch when its analysis
is a dict: the analysis with the sanitized filename inserted.  (Total
stand-in used to state the loop characterization; on a non-dict analysis
the loop itself raises instead.) -/
def tagFilename (secure : Str → Str) (u : Upload) : Json :=
  match evaluate_resume u.callOutcome with
  | .obj kvs => Json.obj (objInsert kvs (S "filename") (Json.str (secure u.filename)))
  | j => j

theorem isObjB_exists {j : Json} (h : isObjB j = true) : ∃ kvs, j = Json.obj kvs := by
  cases j with
  | null => simp [isObjB] at h
  | bool b => simp [isObjB] at h
  | num n => simp [isObjB] at h
  | str s => simp [isObjB] at h
  | arr l => simp [isObjB] at h
  | obj kvs => exact ⟨kvs, rfl⟩

theorem batch_fold_characterization (allowedExts : List Str) (secure : Str → Str) :
    ∀ (uploads : List Upload) (rs0 : List Json),
      (∀ u ∈ uploads, acceptedUpload allowedExts u = true →
        isObjB (evaluate_resume u.callOutcome) = true) →
      uploads.foldl (batchStep allowedExts secure) (.ok rs0) =
        .ok (rs0 ++ (uploads.filter (acceptedUpload allowedExts)).map (tagFilename secure)) := by
  intro uploads
  induction uploads with
  | nil => intro rs0 _; simp
  | cons u us ih =>
    intro rs0 h
    simp only [List.foldl_cons]
    by_cases hacc : acceptedUpload allowedExts u = true
    · rcases isObjB_exists (h u (List.mem_cons_self u us) hacc) with ⟨kvs, hkvs⟩
      have hstep : batchStep allowedExts secure (.ok rs0) u =
          .ok (rs0 ++ [tagFilename secure u]) := by
        simp only [batchStep]
        rw [if_pos hacc, hkvs]
        unfold tagFilename
        rw [hkvs]
        rfl
      rw [hstep, ih (rs0 ++ [tagFilename secure u])
        (fun v hv hva => h v (List.mem_cons_of_mem u hv) hva)]
      rw [List.filter_cons_of_pos hacc]
      simp
    · have hstep : batchStep allowedExts secure (.ok rs0) u = .ok rs0 := by
        simp only [batchStep]
        rw [if_neg hacc]
      rw [hstep, ih rs0 (fun v hv hva => h v (List.mem_cons_of_mem u hv) hva)]
      rw [List.filter_cons_of_neg (by simpa using hacc)]

/-- C4 counterexample: a batch of one file with a non-empty job description
— the file named "resume", with no extension — produces zero results, not
one: the upload filter silently drops it before evaluation (here with the
extension set {"pdf"} and the identity filename sanitizer). -/
theorem c4_counterexample :
    index_post [S "pdf"] (fun s => s) (S "jd")
        [⟨S "resume", Except.ok (S "{}")⟩] =
      Except.ok (IndexView.results [] (Json.num 0)) ∧
    [(⟨S "resume", Except.ok (S "{}")⟩ : Upload)].length = 1 := by
  constructor
  · have hbatch : batchResults [S "pdf"] (fun s => s)
        [⟨S "resume", Except.ok (S "{}")⟩] = .ok [] := rfl
    have hsort : sortResults [] = .ok [] := by
      simp [sortResults, List.mergeSort_nil]
    unfold index_post
    rw [if_neg (by decide), hbatch]
    show (match sortResults [] with
      | Except.error e => Except.error e
      | Except.ok sorted =>
        match topScore sorted with
        | Except.error e => Except.error e
        | Except.ok top => Except.ok (IndexView.results sorted top)) =
      Except.ok (IndexView.results [] (Json.num 0))
    rw [hsort]
    rfl
  · rfl

/-- C4 amended: the loop returns one result per file that passes the upload
filter (truthy file with an allowed extension) — files failing the filter
are silently dropped, never evaluated.  Among accepted files, a model-call
failure never drops the file or aborts the batch: every failure path
produces the object-shaped fallback, and whenever each accepted file's
analysis is an object (which every failure is), the batch succeeds with
exactly the accepted files' tagged analyses, in submission order. -/
theorem c4_batch_amended :
    (∀ e : PyExc, isObjB (evaluate_resume (Except.error e)) = true) ∧
    (∀ (allowedExts : List Str) (secure : Str → Str) (uploads : List Upload),
      (∀ u ∈ uploads, acceptedUpload allowedExts u = true →
        isObjB (evaluate_resume u.callOutcome) = true) →
      batchResults allowedExts secure uploads =
        .ok ((uploads.filter (acceptedUpload allowedExts)).map (tagFilename secure)) ∧
      ((uploads.filter (acceptedUpload allowedExts)).map (tagFilename secure)).length =
        (uploads.filter (acceptedUpload allowedExts)).length) := by
  refine ⟨fun e => rfl, ?_⟩
  intro allowedExts secure uploads h
  refine ⟨?_, by simp⟩
  unfold batchResults
  rw [batch_fold_characterization allowedExts secure uploads [] h]
  rfl

/-- C4 amended witness: a two-file batch — one upload whose model call
raised, one whose model returned garbage braces — yields exactly two
results, the fallback tagged with each filename. -/
theorem c4_batch_amended_witness :
    batchResults [S "pdf"] (fun s => s)
        [⟨S "a.pdf", Except.error "network"⟩,
         ⟨S "b.pdf", Except.ok (S "not json at all")⟩] =
      Except.ok
        [tagFilename (fun s => s) ⟨S "a.pdf", Except.error "network"⟩,
         tagFilename (fun s => s) ⟨S "b.pdf", Except.ok (S "not json at all")⟩] := by
  have h := (c4_batch_amended.2 [S "pdf"] (fun s => s)
    [⟨S "a.pdf", Except.error "network"⟩,
     ⟨S "b.pdf", Except.ok (S "not json at all")⟩]
    (by
      intro u hu _
      rcases List.mem_cons.mp hu with rfl | h1
      · rfl
      · rcases List.mem_cons.mp h1 with rfl | h2
        · rfl
        · cases h2)).1
  exact h

/-- The descending comparison `results.sort` uses: a result sorts no later
than another when its defaulted score is at least the other's. -/
def scoreDescLe (a b : Json) : Bool := decide (keyD b ≤ keyD a)

theorem keyOf_obj (kvs : List (Str × Json)) (n : Int)
    (h : assocGet kvs (S "overall_score") = some (Json.num n)) :
    keyOf (Json.obj kvs) = some n := by
  unfold keyOf
  show (match assocGet kvs "overall_score".toList with
    | none => some 0
    | some (Json.num n) => some n
    | some _ => none) = some n
  rw [show assocGet kvs "overall_score".toList = some (Json.num n) from h]

theorem topScore_cons_obj (kvs : List (Str × Json)) (n : Int) (tl : List Json)
    (h : assocGet kvs (S "overall_score") = some (Json.num n)) :
    topScore (Json.obj kvs :: tl) = Except.ok (Json.num n) := by
  unfold topScore
  show (match assocGet kvs "overall_score".toList with
    | some v => Except.ok v
    | none => Except.error "KeyError") = Except.ok (Json.num n)
  rw [show assocGet kvs "overall_score".toList = some (Json.num n) from h]

theorem scoreDescLe_trans (a b c : Json) :
    scoreDescLe a b → scoreDescLe b c → scoreDescLe a c := by
  unfold scoreDescLe
  intro h1 h2
  have g1 := of_decide_eq_true h1
  have g2 := of_decide_eq_true h2
  exact decide_eq_true (le_trans g2 g1)

theorem scoreDescLe_total (a b : Json) : scoreDescLe a b || scoreDescLe b a := by
  unfold scoreDescLe
  rcases le_total (keyD a) (keyD b) with h | h
  · simp [decide_eq_true h]
  · simp [decide_eq_true h]

/-- C7: on a batch of object results carrying integer overall scores, the
sort succeeds and returns exactly as many results, ordered by non-increasing
overall score with ties preserving submission order (the filter of each
score level is unchanged), and the reported top score is the first sorted
result's overall_score — or 0 for the empty batch, which never raises. -/
theorem c7_ranking_stable_descending (l : List Json)
    (h : ∀ r ∈ l, ∃ kvs n, r = Json.obj kvs ∧
      assocGet kvs (S "overall_score") = some (Json.num n)) :
    sortResults l = .ok (l.mergeSort scoreDescLe) ∧
    (l.mergeSort scoreDescLe).length = l.length ∧
    (l.mergeSort scoreDescLe).Pairwise (fun a b => keyD b ≤ keyD a) ∧
    (∀ s : Int, (l.mergeSort scoreDescLe).filter (fun r => keyD r == s) =
      l.filter (fun r => keyD r == s)) ∧
    (l = [] → sortResults l = .ok [] ∧ topScore [] = .ok (Json.num 0)) ∧
    (∀ hd tl, l.mergeSort scoreDescLe = hd :: tl →
      ∃ kvs n, hd = Json.obj kvs ∧
        assocGet kvs (S "overall_score") = some (Json.num n) ∧
        topScore (l.mergeSort scoreDescLe) = .ok (Json.num n)) := by
  have hkey : ∀ r ∈ l, keyOf r ≠ none := by
    intro r hr
    rcases h r hr with ⟨kvs, n, rfl, hget⟩
    rw [keyOf_obj kvs n hget]
    simp
  have hsort : sortResults l = .ok (l.mergeSort scoreDescLe) := by
    unfold sortResults
    rw [if_pos]
    · rfl
    · rw [List.all_eq_true]
      intro r hr
      have := hkey r hr
      simp [Option.isSome_iff_ne_none, this]
  refine ⟨hsort, List.length_mergeSort l, ?_, ?_, ?_, ?_⟩
  · have := @List.sorted_mergeSort _ scoreDescLe
      scoreDescLe_trans (fun a b => scoreDescLe_total a b) l
    exact this.imp (fun hab => of_decide_eq_true hab)
  · intro s
    set p : Json → Bool := fun r => keyD r == s with hp
    have hfl : List.Sublist (l.filter p) l := List.filter_sublist l
    have hpw : (l.filter p).Pairwise (fun a b => scoreDescLe a b = true) := by
      apply List.pairwise_of_forall_mem_list
      intro a ha b hb
      have ha2 : keyD a = s := by simpa [hp] using (List.mem_filter.mp ha).2
      have hb2 : keyD b = s := by simpa [hp] using (List.mem_filter.mp hb).2
      unfold scoreDescLe
      rw [ha2, hb2]
      simp
    have hsub : List.Sublist (l.filter p) (l.mergeSort scoreDescLe) :=
      List.sublist_mergeSort scoreDescLe_trans (fun a b => scoreDescLe_total a b)
        (by simpa using hpw) hfl
    have hsub2 : List.Sublist (l.filter p) ((l.mergeSort scoreDescLe).filter p) := by
      have : (l.filter p).filter p = l.filter p := by
        rw [List.filter_eq_self]
        intro a ha
        exact (List.mem_filter.mp ha).2
      rw [← this]
      exact List.Sublist.filter p hsub
    have hlen : ((l.mergeSort scoreDescLe).filter p).length = (l.filter p).length :=
      ((List.mergeSort_perm l scoreDescLe).filter p).length_eq
    exact (hsub2.eq_of_length hlen.symm).symm
  · intro hl
    subst hl
    exact ⟨by simpa using hsort, rfl⟩
  · intro hd tl heq
    have hmem : hd ∈ l := by
      have : hd ∈ l.mergeSort scoreDescLe := by rw [heq]; exact List.mem_cons_self hd tl
      exact List.mem_mergeSort.mp this
    rcases h hd hmem with ⟨kvs, n, rfl, hget⟩
    refine ⟨kvs, n, rfl, hget, ?_⟩
    rw [heq]
    exact topScore_cons_obj kvs n tl hget

/-- C7 witness: the ranking theorem applied to a concrete three-result
batch with scores 5, 9, 5. -/
theorem c7_ranking_witness :
    sortResults
        [Json.obj [(S "overall_score", Json.num 5), (S "filename", Json.str (S "a"))],
         Json.obj [(S "overall_score", Json.num 9)],
         Json.obj [(S "overall_score", Json.num 5), (S "filename", Json.str (S "b"))]] =
      .ok (List.mergeSort
        [Json.obj [(S "overall_score", Json.num 5), (S "filename", Json.str (S "a"))],
         Json.obj [(S "overall_score", Json.num 9)],
         Json.obj [(S "overall_score", Json.num 5), (S "filename", Json.str (S "b"))]]
        scoreDescLe) ∧
    (List.mergeSort
        [Json.obj [(S "overall_score", Json.num 5), (S "filename", Json.str (S "a"))],
         Json.obj [(S "overall_score", Json.num 9)],
         Json.obj [(S "overall_score", Json.num 5), (S "filename", Json.str (S "b"))]]
        scoreDescLe).length = 3 := by
  have h := c7_ranking_stable_descending
    [Json.obj [(S "overall_score", Json.num 5), (S "filename", Json.str (S "a"))],
     Json.obj [(S "overall_score", Json.num 9)],
     Json.obj [(S "overall_score", Json.num 5), (S "filename", Json.str (S "b"))]]
    (by
      intro r hr
      rcases List.mem_cons.mp hr with rfl | hr1
      · exact ⟨[(S "overall_score", Json.num 5), (S "filename", Json.str (S "a"))], 5, rfl, rfl⟩
      · rcases List.mem_cons.mp hr1 with rfl | hr2
        · exact ⟨[(S "overall_score", Json.num 9)], 9, rfl, rfl⟩
        · rcases List.mem_cons.mp hr2 with rfl | hr3
          · exact ⟨[(S "overall_score", Json.num 5), (S "filename", Json.str (S "b"))], 5,
              rfl, rfl⟩
          · cases hr3)
  exact ⟨h.1, h.2.1⟩

/-! Helper lemmas for claim C3: locating the brace span commutes with the
strip step, proved by decomposing the text at its first opening brace and
last closing brace. -/

theorem exists_first_split (c : Char) (l : Str) (h : c ∈ l) :
    ∃ a r, l = a ++ c :: r ∧ c ∉ a := by
  induction l with
  | nil => cases h
  | cons x l ih =>
    by_cases hx : x = c
    · exact ⟨[], l, by simp [hx], by simp⟩
    · rcases List.mem_cons.mp h with h1 | h1
      · exact absurd h1.symm hx
      · rcases ih h1 with ⟨a, r, rfl, ha⟩
        refine ⟨x :: a, r, rfl, ?_⟩
        intro hmem
        rcases List.mem_cons.mp hmem with h2 | h2
        · exact hx h2.symm
        · exact ha h2

theorem findIdx?_first_split (p : Char → Bool) (a : Str) (x : Char) (r : Str)
    (ha : ∀ y ∈ a, p y = false) (hx : p x = true) :
    (a ++ x :: r).findIdx? p = some a.length := by
  induction a with
  | nil => simp [hx]
  | cons y a ih =>
    have hy : p y = false := ha y (List.mem_cons_self y a)
    simp only [List.cons_append, List.findIdx?_cons, hy, Bool.false_eq_true, if_false,
      List.findIdx?_succ]
    rw [ih (fun z hz => ha z (List.mem_cons_of_mem y hz))]
    simp

theorem dropWhile_to_stopper (p : Char → Bool) (a : Str) (x : Char) (v : Str)
    (hx : p x = false) :
    List.dropWhile p (a ++ x :: v) = List.dropWhile p a ++ x :: v := by
  induction a with
  | nil => simp [List.dropWhile_cons, hx]
  | cons y a ih =>
    by_cases hy : p y = true
    · simp only [List.cons_append, List.dropWhile_cons, hy, if_true]
      exact ih
    · rw [Bool.not_eq_true] at hy
      simp only [List.cons_append, List.dropWhile_cons, hy, Bool.false_eq_true, if_false]

theorem rdropWhile_to_stopper (p : Char → Bool) (v : Str) (x : Char) (b : Str)
    (hx : p x = false) :
    List.rdropWhile p (v ++ x :: b) = v ++ x :: List.rdropWhile p b := by
  unfold List.rdropWhile
  rw [show (v ++ x :: b).reverse = b.reverse ++ x :: v.reverse by simp]
  rw [dropWhile_to_stopper p b.reverse x v.reverse hx]
  simp

theorem mem_of_mem_dropWhile {x : Char} {p : Char → Bool} {l : Str}
    (h : x ∈ List.dropWhile p l) : x ∈ l :=
  (List.dropWhile_sublist p).mem h

theorem mem_of_mem_rdropWhile {x : Char} {p : Char → Bool} {l : Str}
    (h : x ∈ List.rdropWhile p l) : x ∈ l := by
  unfold List.rdropWhile at h
  rw [List.mem_reverse] at h
  have := mem_of_mem_dropWhile h
  rwa [List.mem_reverse] at this

theorem take_append_len (a v : Str) (k : Nat) :
    (a ++ v).take (a.length + k) = a ++ v.take k := by
  rw [List.take_append_eq_append_take]
  rw [List.take_of_length_le (by omega)]
  have h : a.length + k - a.length = k := by omega
  rw [h]

theorem reverse_decomp_case1 (a m b : Str) :
    (a ++ '{' :: (m ++ '}' :: b)).reverse =
      b.reverse ++ '}' :: (m.reverse ++ '{' :: a.reverse) := by
  simp

theorem not_mem_beq_false {c : Char} {l : Str} (h : c ∉ l) :
    ∀ y ∈ l, (y == c) = false := by
  intro y hy
  rw [beq_eq_false_iff_ne]
  intro rfl2
  exact h (rfl2 ▸ hy)

theorem span_take_drop_case1 (a m b : Str) :
    ((a ++ '{' :: (m ++ '}' :: b)).take
        ((a ++ '{' :: (m ++ '}' :: b)).length - b.length)).drop a.length =
      '{' :: (m ++ ['}']) := by
  have hlen : (a ++ '{' :: (m ++ '}' :: b)).length - b.length =
      a.length + (m.length + 2) := by
    simp
    omega
  rw [hlen]
  rw [take_append_len a ('{' :: (m ++ '}' :: b)) (m.length + 2)]
  rw [List.take_succ_cons]
  rw [show m.length + 1 = m.length + 1 from rfl]
  rw [take_append_len m ('}' :: b) 1]
  rw [List.take_succ_cons, List.take_zero]
  exact List.drop_left a _

theorem specBraceSpan_case1 (a m b : Str) (ha : '{' ∉ a) (hb : '}' ∉ b) :
    specBraceSpan (a ++ '{' :: (m ++ '}' :: b)) = '{' :: (m ++ ['}']) := by
  unfold specBraceSpan
  rw [findIdx?_first_split (fun c => c == '{') a '{' (m ++ '}' :: b)
    (not_mem_beq_false ha) (by decide)]
  rw [reverse_decomp_case1]
  rw [findIdx?_first_split (fun c => c == '}') b.reverse '}' (m.reverse ++ '{' :: a.reverse)
    (not_mem_beq_false (by simpa using hb)) (by decide)]
  rw [List.length_reverse]
  exact span_take_drop_case1 a m b

theorem pyStrip_case1 (a m b : Str) :
    pyStrip (a ++ '{' :: (m ++ '}' :: b)) =
      List.dropWhile isPyWs a ++ '{' :: (m ++ '}' :: List.rdropWhile isPyWs b) := by
  unfold pyStrip
  rw [dropWhile_to_stopper isPyWs a '{' (m ++ '}' :: b) (by decide)]
  rw [show List.dropWhile isPyWs a ++ '{' :: (m ++ '}' :: b) =
      (List.dropWhile isPyWs a ++ '{' :: m) ++ '}' :: b by simp]
  rw [rdropWhile_to_stopper isPyWs _ '}' b (by decide)]
  simp

theorem safe_parse_case1 (a m b : Str) (ha : '{' ∉ a) (hb : '}' ∉ b) :
    safe_parse_json (a ++ '{' :: (m ++ '}' :: b)) = pyLoads ('{' :: (m ++ ['}'])) := by
  have ha1 : '{' ∉ List.dropWhile isPyWs a := fun h => ha (mem_of_mem_dropWhile h)
  have hb1 : '}' ∉ List.rdropWhile isPyWs b := fun h => hb (mem_of_mem_rdropWhile h)
  have hfind : pyFind (List.dropWhile isPyWs a ++ '{' :: (m ++ '}' :: List.rdropWhile isPyWs b))
      '{' = ((List.dropWhile isPyWs a).length : Int) := by
    unfold pyFind
    rw [findIdx?_first_split _ _ '{' _ (not_mem_beq_false ha1) (by decide)]
  have hrfind : pyRfind (List.dropWhile isPyWs a ++ '{' :: (m ++ '}' :: List.rdropWhile isPyWs b))
      '}' = (((List.dropWhile isPyWs a ++ '{' :: (m ++ '}' :: List.rdropWhile isPyWs b)).length
        - 1 - (List.rdropWhile isPyWs b).length : Nat) : Int) := by
    unfold pyRfind
    rw [reverse_decomp_case1]
    rw [findIdx?_first_split _ _ '}' _ (not_mem_beq_false (by simpa using hb1)) (by decide)]
    rw [List.length_reverse]
  unfold safe_parse_json
  rw [pyStrip_case1, hfind, hrfind]
  rw [if_pos ⟨by omega, by omega⟩]
  unfold pySlice
  have h1 : (((List.dropWhile isPyWs a).length : Int)).toNat =
      (List.dropWhile isPyWs a).length := by omega
  have h2 : ((((List.dropWhile isPyWs a ++ '{' :: (m ++ '}' :: List.rdropWhile isPyWs b)).length
      - 1 - (List.rdropWhile isPyWs b).length : Nat) : Int) + 1).toNat =
      (List.dropWhile isPyWs a ++ '{' :: (m ++ '}' :: List.rdropWhile isPyWs b)).length
        - (List.rdropWhile isPyWs b).length := by
    have hlen : (List.dropWhile isPyWs a ++ '{' :: (m ++ '}' :: List.rdropWhile isPyWs b)).length
        = (List.dropWhile isPyWs a).length + m.length + (List.rdropWhile isPyWs b).length + 2 := by
      simp
      omega
    omega
  rw [h1, h2]
  exact congrArg pyLoads (span_take_drop_case1 _ m _)

theorem specBraceSpan_case2 (c m b : Str) (hc : '{' ∉ c) (hm : '{' ∉ m)
    (hm2 : '}' ∉ m) (hb : '}' ∉ b) :
    specBraceSpan (c ++ '}' :: (m ++ '{' :: b)) = [] := by
  have hnotmem1 : '{' ∉ c ++ '}' :: m := by
    intro h
    rcases List.mem_append.mp h with h1 | h1
    · exact hc h1
    · rcases List.mem_cons.mp h1 with h2 | h2
      · cases h2
      · exact hm h2
  have hnotmem2 : '}' ∉ b.reverse ++ '{' :: m.reverse := by
    intro h
    rcases List.mem_append.mp h with h1 | h1
    · exact hb (List.mem_reverse.mp h1)
    · rcases List.mem_cons.mp h1 with h2 | h2
      · cases h2
      · exact hm2 (List.mem_reverse.mp h2)
  unfold specBraceSpan
  rw [show c ++ '}' :: (m ++ '{' :: b) = (c ++ '}' :: m) ++ '{' :: b by simp]
  rw [findIdx?_first_split _ _ '{' _ (not_mem_beq_false hnotmem1) (by decide)]
  rw [show ((c ++ '}' :: m) ++ '{' :: b).reverse =
      (b.reverse ++ '{' :: m.reverse) ++ '}' :: c.reverse by simp]
  rw [findIdx?_first_split _ _ '}' _ (not_mem_beq_false hnotmem2) (by decide)]
  apply List.drop_eq_nil_of_le
  have h1 := List.length_take
    (((c ++ '}' :: m) ++ '{' :: b).length - (b.reverse ++ '{' :: m.reverse).length)
    ((c ++ '}' :: m) ++ '{' :: b)
  have h2 : ((c ++ '}' :: m) ++ '{' :: b).length = c.length + m.length + b.length + 2 := by
    simp
    omega
  have h3 : (b.reverse ++ '{' :: m.reverse).length = b.length + m.length + 1 := by
    simp
    omega
  have h4 : (c ++ '}' :: m).length = c.length + m.length + 1 := by
    simp
    omega
  omega

theorem pyStrip_case2 (c m b : Str) :
    pyStrip (c ++ '}' :: (m ++ '{' :: b)) =
      List.dropWhile isPyWs c ++ '}' :: (m ++ '{' :: List.rdropWhile isPyWs b) := by
  unfold pyStrip
  rw [dropWhile_to_stopper isPyWs c '}' (m ++ '{' :: b) (by decide)]
  rw [show List.dropWhile isPyWs c ++ '}' :: (m ++ '{' :: b) =
      (List.dropWhile isPyWs c ++ '}' :: m) ++ '{' :: b by simp]
  rw [rdropWhile_to_stopper isPyWs _ '{' b (by decide)]
  simp

theorem safe_parse_case2 (c m b : Str) (hc : '{' ∉ c) (hm : '{' ∉ m)
    (hm2 : '}' ∉ m) (hb : '}' ∉ b) :
    safe_parse_json (c ++ '}' :: (m ++ '{' :: b)) = pyLoads [] := by
  have hc1 : '{' ∉ List.dropWhile isPyWs c := fun h => hc (mem_of_mem_dropWhile h)
  have hb1 : '}' ∉ List.rdropWhile isPyWs b := fun h => hb (mem_of_mem_rdropWhile h)
  have hnotmem1 : '{' ∉ List.dropWhile isPyWs c ++ '}' :: m := by
    intro h
    rcases List.mem_append.mp h with h1 | h1
    · exact hc1 h1
    · rcases List.mem_cons.mp h1 with h2 | h2
      · cases h2
      · exact hm h2
  have hnotmem2 : '}' ∉ (List.rdropWhile isPyWs b).reverse ++ '{' :: m.reverse := by
    intro h
    rcases List.mem_append.mp h with h1 | h1
    · exact hb1 (List.mem_reverse.mp h1)
    · rcases List.mem_cons.mp h1 with h2 | h2
      · cases h2
      · exact hm2 (List.mem_reverse.mp h2)
  have hfind : pyFind (List.dropWhile isPyWs c ++ '}' :: (m ++ '{' :: List.rdropWhile isPyWs b))
      '{' = ((List.dropWhile isPyWs c ++ '}' :: m).length : Int) := by
    unfold pyFind
    rw [show List.dropWhile isPyWs c ++ '}' :: (m ++ '{' :: List.rdropWhile isPyWs b) =
        (List.dropWhile isPyWs c ++ '}' :: m) ++ '{' :: List.rdropWhile isPyWs b by simp]
    rw [findIdx?_first_split _ _ '{' _ (not_mem_beq_false hnotmem1) (by decide)]
  have hrfind : pyRfind (List.dropWhile isPyWs c ++ '}' :: (m ++ '{' :: List.rdropWhile isPyWs b))
      '}' = (((List.dropWhile isPyWs c ++ '}' :: (m ++ '{' :: List.rdropWhile isPyWs b)).length
        - 1 - ((List.rdropWhile isPyWs b).reverse ++ '{' :: m.reverse).length : Nat) : Int) := by
    unfold pyRfind
    rw [show (List.dropWhile isPyWs c ++ '}' :: (m ++ '{' :: List.rdropWhile isPyWs b)).reverse =
        ((List.rdropWhile isPyWs b).reverse ++ '{' :: m.reverse) ++ '}' ::
          (List.dropWhile isPyWs c).reverse by simp]
    rw [findIdx?_first_split _ _ '}' _ (not_mem_beq_false hnotmem2) (by decide)]
  unfold safe_parse_json
  rw [pyStrip_case2, hfind, hrfind]
  rw [if_pos ⟨by omega, by omega⟩]
  have hzero : pySlice
      (List.dropWhile isPyWs c ++ '}' :: (m ++ '{' :: List.rdropWhile isPyWs b))
      ((List.dropWhile isPyWs c ++ '}' :: m).length : Int)
      ((((List.dropWhile isPyWs c ++ '}' :: (m ++ '{' :: List.rdropWhile isPyWs b)).length
        - 1 - ((List.rdropWhile isPyWs b).reverse ++ '{' :: m.reverse).length : Nat) : Int) + 1) =
      [] := by
    unfold pySlice
    apply List.drop_eq_nil_of_le
    have h1 := List.length_take
      (((((List.dropWhile isPyWs c ++ '}' :: (m ++ '{' :: List.rdropWhile isPyWs b)).length
        - 1 - ((List.rdropWhile isPyWs b).reverse ++ '{' :: m.reverse).length : Nat) : Int) + 1).toNat)
      (List.dropWhile isPyWs c ++ '}' :: (m ++ '{' :: List.rdropWhile isPyWs b))
    have h2 : (List.dropWhile isPyWs c ++ '}' :: (m ++ '{' :: List.rdropWhile isPyWs b)).length =
        (List.dropWhile isPyWs c).length + m.length + (List.rdropWhile isPyWs b).length + 2 := by
      simp
      omega
    have h3 : ((List.rdropWhile isPyWs b).reverse ++ '{' :: m.reverse).length =
        (List.rdropWhile isPyWs b).length + m.length + 1 := by
      simp
      omega
    have h4 : (List.dropWhile isPyWs c ++ '}' :: m).length =
        (List.dropWhile isPyWs c).length + m.length + 1 := by
      simp
      omega
    have h5 : (((List.dropWhile isPyWs c ++ '}' :: m).length : Int)).toNat =
        (List.dropWhile isPyWs c ++ '}' :: m).length := by omega
    omega
  rw [hzero]

/-- C3 amended: for every response text containing both braces the engine
decodes exactly the span from the first brace to the last closing brace of
the raw text; and `evaluate_resume` substitutes the fixed fallback — never
propagating a failure — whenever the model call throws, decoding fails, or
the decoded value is falsy; but a truthy decoded value, even a non-object
such as a JSON number, is returned to the caller unchanged rather than
replaced by the fallback. -/
theorem c3_parse_amended :
    (∀ t : Str, '{' ∈ t → '}' ∈ t →
      safe_parse_json t = pyLoads (specBraceSpan t)) ∧
    (∀ e : PyExc, evaluate_resume (Except.error e) = fallbackResult) ∧
    (∀ t, safe_parse_json t = none → evaluate_resume (Except.ok t) = fallbackResult) ∧
    (∀ t v, safe_parse_json t = some v → v.truthy = false →
      evaluate_resume (Except.ok t) = fallbackResult) ∧
    (∀ t v, safe_parse_json t = some v → v.truthy = true →
      evaluate_resume (Except.ok t) = v) := by
  refine ⟨?_, fun e => rfl, ?_, ?_, ?_⟩
  · intro t hmo hmc
    rcases exists_first_split '}' t.reverse (List.mem_reverse.mpr hmc) with ⟨a0, r0, hsplit, ha0⟩
    have ht : t = r0.reverse ++ '}' :: a0.reverse := by
      rw [← List.reverse_reverse t, hsplit]
      simp
    have hb : '}' ∉ a0.reverse := fun h => ha0 (List.mem_reverse.mp h)
    by_cases hcc : '{' ∈ r0.reverse
    · rcases exists_first_split '{' r0.reverse hcc with ⟨a, m, hsplit2, ha⟩
      have ht2 : t = a ++ '{' :: (m ++ '}' :: a0.reverse) := by
        rw [ht, hsplit2]
        simp
      rw [ht2, safe_parse_case1 a m a0.reverse ha hb,
        specBraceSpan_case1 a m a0.reverse ha hb]
    · have hmo2 : '{' ∈ a0.reverse := by
        rw [ht] at hmo
        rcases List.mem_append.mp hmo with h1 | h1
        · exact absurd h1 hcc
        · rcases List.mem_cons.mp h1 with h2 | h2
          · cases h2
          · exact h2
      rcases exists_first_split '{' a0.reverse hmo2 with ⟨m1, b1, hsplit2, hm1⟩
      have hm2 : '}' ∉ m1 := by
        intro h
        exact hb (hsplit2 ▸ List.mem_append.mpr (Or.inl h))
      have hb1 : '}' ∉ b1 := by
        intro h
        refine hb (hsplit2 ▸ List.mem_append.mpr (Or.inr ?_))
        exact List.mem_cons_of_mem _ h
      have ht2 : t = r0.reverse ++ '}' :: (m1 ++ '{' :: b1) := by
        rw [ht, hsplit2]
      rw [ht2, safe_parse_case2 r0.reverse m1 b1 hcc hm1 hm2 hb1,
        specBraceSpan_case2 r0.reverse m1 b1 hcc hm1 hm2 hb1]
  · intro t hp
    simp [evaluate_resume, hp]
  · intro t v hp ht
    simp [evaluate_resume, hp, ht]
  · intro t v hp ht
    simp [evaluate_resume, hp, ht]

/-- C3 amended witness: the brace-span equation applied at the concrete
noisy response "noise \x7b\"a\": 1\x7d trailing", whose span decodes to the
object with key "a", and the fallback branch at a throwing call. -/
theorem c3_parse_amended_witness :
    safe_parse_json (S "noise \x7b\"a\": 1\x7d trailing") =
      pyLoads (specBraceSpan (S "noise \x7b\"a\": 1\x7d trailing")) ∧
    safe_parse_json (S "noise \x7b\"a\": 1\x7d trailing") = some (Json.obj [(S "a", Json.num 1)]) ∧
    evaluate_resume (Except.error "quota") = fallbackResult := by
  refine ⟨c3_parse_amended.1 (S "noise \x7b\"a\": 1\x7d trailing") (by decide) (by decide),
    rfl, c3_parse_amended.2.1 "quota"⟩

/-! Infrastructure for claim C9: `pyLoads` decodes every `pyDumps` output
back to the original value. -/

theorem toNat_charOfNat (n : Nat) (h : Nat.isValidChar n) : (Char.ofNat n).toNat = n := by
  unfold Char.ofNat
  rw [dif_pos h]
  rfl

theorem charOfNat?_toNat (c : Char) : charOfNat? c.toNat = some c := by
  unfold charOfNat?
  have h : Nat.isValidChar c.toNat := c.valid
  rw [if_pos h, Char.ofNat_toNat]

theorem char_eq_of_toNat_eq {a b : Char} (h : a.toNat = b.toNat) : a = b := by
  have h2 := Char.ofNat_toNat a
  rw [h, Char.ofNat_toNat] at h2
  exact h2.symm

theorem char_toNat_valid (c : Char) :
    c.toNat < 0xd800 ∨ (0xdfff < c.toNat ∧ c.toNat < 0x110000) := c.valid

theorem isDigit_bounds {c : Char} (h : c.isDigit = true) :
    48 ≤ c.toNat ∧ c.toNat ≤ 57 := by
  simp [Char.isDigit] at h
  exact ⟨h.1, h.2⟩

theorem isDigit_of_bounds {c : Char} (h1 : 48 ≤ c.toNat) (h2 : c.toNat ≤ 57) :
    c.isDigit = true := by
  simp [Char.isDigit]
  exact ⟨h1, h2⟩

theorem hexVal_hexDigitChar : ∀ k : Nat, k < 16 → hexVal (hexDigitChar k) = some k := by
  decide

/-! Fuel requirements of the parsing functions, by the structure of the
value being read back. -/

mutual

/-- Fuel sufficient for `parseValue` on the printed form of a value. -/
def needFuel : Json → Nat
  | .null => 1
  | .bool _ => 1
  | .num _ => 1
  | .str _ => 1
  | .arr xs => 1 + needArr xs
  | .obj kvs => 1 + needObj kvs

/-- Fuel sufficient for `parseElems` on a printed element list. -/
def needArr : List Json → Nat
  | [] => 1
  | x :: xs => 1 + max (needFuel x) (needElemsRest xs)

/-- Fuel sufficient for `parseElemsRest` on a printed element tail. -/
def needElemsRest : List Json → Nat
  | [] => 1
  | x :: xs => 1 + max (needFuel x) (needElemsRest xs)

/-- Fuel sufficient for `parseKVs` on a printed member list. -/
def needObj : List (Str × Json) → Nat
  | [] => 1
  | kv :: kvs => 1 + max (needFuel kv.2) (needKVsRest kvs)

/-- Fuel sufficient for `parseKVsRest` on a printed member tail. -/
def needKVsRest : List (Str × Json) → Nat
  | [] => 1
  | kv :: kvs => 1 + max (needFuel kv.2) (needKVsRest kvs)

end

/-- What may legitimately follow a printed JSON value inside a document:
nothing, or a separator or closer. -/
def restOK (rest : Str) : Prop :=
  match rest with
  | [] => True
  | c :: _ => c = ',' ∨ c = ']' ∨ c = '}'

theorem natToStr_unfold (n : Nat) :
    natToStr n = if n < 10 then [Char.ofNat (48 + n)]
      else natToStr (n / 10) ++ [Char.ofNat (48 + n % 10)] := by
  rw [natToStr]
  split <;> rfl

theorem toNat_digitChar {d : Nat} (h : d < 10) : (Char.ofNat (48 + d)).toNat = 48 + d :=
  toNat_charOfNat (48 + d) (Or.inl (by omega))

theorem isDigit_digitChar {d : Nat} (h : d < 10) : (Char.ofNat (48 + d)).isDigit = true :=
  isDigit_of_bounds (by rw [toNat_digitChar h]; omega) (by rw [toNat_digitChar h]; omega)

theorem natToStr_all_digits (n : Nat) : ∀ c ∈ natToStr n, c.isDigit = true := by
  induction n using Nat.strong_induction_on with
  | _ n ih =>
    rw [natToStr_unfold]
    by_cases h : n < 10
    · rw [if_pos h]
      intro c hc
      rcases List.mem_singleton.mp hc with rfl
      exact isDigit_digitChar h
    · rw [if_neg h]
      intro c hc
      rcases List.mem_append.mp hc with h1 | h1
      · exact ih (n / 10) (by omega) c h1
      · rcases List.mem_singleton.mp h1 with rfl
        exact isDigit_digitChar (by omega)

theorem natToStr_ne_nil (n : Nat) : natToStr n ≠ [] := by
  rw [natToStr_unfold]
  by_cases h : n < 10
  · rw [if_pos h]; simp
  · rw [if_neg h]; simp

theorem digitsVal_append_one (a : Str) (c : Char) :
    digitsVal (a ++ [c]) = digitsVal a * 10 + digitVal c := by
  unfold digitsVal
  rw [List.foldl_append]
  rfl

theorem digitsVal_natToStr (n : Nat) : digitsVal (natToStr n) = n := by
  induction n using Nat.strong_induction_on with
  | _ n ih =>
    rw [natToStr_unfold]
    by_cases h : n < 10
    · rw [if_pos h]
      show digitsVal ([] ++ [Char.ofNat (48 + n)]) = n
      rw [digitsVal_append_one]
      unfold digitVal
      rw [toNat_digitChar h]
      simp [digitsVal]
    · rw [if_neg h]
      rw [digitsVal_append_one, ih (n / 10) (by omega)]
      unfold digitVal
      rw [toNat_digitChar (by omega)]
      omega

theorem natToStr_head_ne_zero (n : Nat) (hn : 1 ≤ n) :
    ∀ c cs, natToStr n = c :: cs → c.toNat ≠ 48 := by
  induction n using Nat.strong_induction_on with
  | _ n ih =>
    intro c cs hc
    rw [natToStr_unfold] at hc
    by_cases h : n < 10
    · rw [if_pos h] at hc
      cases hc
      rw [toNat_digitChar h]
      omega
    · rw [if_neg h] at hc
      rcases hd : natToStr (n / 10) with _ | ⟨c2, cs2⟩
      · exact absurd hd (natToStr_ne_nil _)
      · rw [hd] at hc
        have hcc : c = c2 := by
          have := congrArg (fun l => l.head?) hc
          simpa using this.symm
        rw [hcc]
        exact ih (n / 10) (by omega) (by omega) c2 cs2 hd

theorem takeWhile_all_append (p : Char → Bool) (a r : Str)
    (ha : ∀ c ∈ a, p c = true)
    (hr : match r with | [] => True | c :: _ => p c = false) :
    (a ++ r).takeWhile p = a ∧ (a ++ r).dropWhile p = r := by
  induction a with
  | nil =>
    cases r with
    | nil => exact ⟨rfl, rfl⟩
    | cons c r2 =>
      simp only [List.nil_append, List.takeWhile_cons, List.dropWhile_cons]
      rw [hr]
      exact ⟨rfl, rfl⟩
  | cons c a ih =>
    have hc : p c = true := ha c (List.mem_cons_self c a)
    have ih2 := ih (fun x hx => ha x (List.mem_cons_of_mem c hx))
    simp only [List.cons_append, List.takeWhile_cons, List.dropWhile_cons, hc, if_true]
    exact ⟨by rw [ih2.1], by rw [ih2.2]⟩

theorem restOK_sep {rest : Str} (h : restOK rest) :
    match rest with
    | [] => True
    | c :: _ => c.isDigit = false ∧ c ≠ '.' ∧ c ≠ 'e' ∧ c ≠ 'E' := by
  cases rest with
  | nil => trivial
  | cons c r =>
    rcases h with rfl | rfl | rfl <;> exact ⟨by decide, by decide, by decide, by decide⟩

theorem parseNat_natToStr (n : Nat) (rest : Str) (h : restOK rest) :
    parseNat (natToStr n ++ rest) = some (n, rest) := by
  have hsep := restOK_sep h
  have htake := takeWhile_all_append Char.isDigit (natToStr n) rest
    (natToStr_all_digits n)
    (by cases rest with
        | nil => trivial
        | cons c r => exact hsep.1)
  unfold parseNat
  rw [htake.1, htake.2]
  rw [if_neg (by simp [natToStr_ne_nil n])]
  have hlead : ((natToStr n).length > 1 && (natToStr n).head? == some '0') = false := by
    by_cases hn : n < 10
    · have hone : (natToStr n).length = 1 := by
        rw [natToStr_unfold, if_pos hn]
        rfl
      simp [hone]
    · rcases hd : natToStr n with _ | ⟨c, cs⟩
      · exact absurd hd (natToStr_ne_nil _)
      · have hne := natToStr_head_ne_zero n (by omega) c cs hd
        rw [Bool.and_eq_false_iff]
        right
        simp only [List.head?_cons]
        rw [beq_eq_false_iff_ne]
        intro hc
        have hc2 : c = '0' := by injection hc
        refine hne ?_
        rw [hc2]
        decide
  rw [hlead]
  simp only [Bool.false_eq_true, if_false]
  cases rest with
  | nil => rw [digitsVal_natToStr]
  | cons c r =>
    show (if (decide (c = '.') || decide (c = 'e') || decide (c = 'E')) = true then none
        else some (digitsVal (natToStr n), c :: r)) = some (n, c :: r)
    rw [if_neg (by
      rcases hsep with ⟨h1, h2, h3, h4⟩
      simp [h2, h3, h4])]
    rw [digitsVal_natToStr]

theorem parseNumber_intToStr (n : Int) (rest : Str) (h : restOK rest) :
    parseNumber (intToStr n ++ rest) = some (Json.num n, rest) := by
  unfold intToStr
  by_cases hn : n < 0
  · rw [if_pos hn]
    show parseNumber ('-' :: (natToStr (-n).toNat ++ rest)) = some (Json.num n, rest)
    show (match parseNat (natToStr (-n).toNat ++ rest) with
      | some (n1, r1) => some (Json.num (-(n1 : Int)), r1)
      | none => none) = some (Json.num n, rest)
    rw [parseNat_natToStr _ rest h]
    show some (Json.num (-(((-n).toNat : Nat) : Int)), rest) = some (Json.num n, rest)
    rw [show (-(((-n).toNat : Nat) : Int)) = n by omega]
  · rw [if_neg hn]
    rcases hd : natToStr n.toNat with _ | ⟨c, cs⟩
    · exact absurd hd (natToStr_ne_nil _)
    · have hdig : c.isDigit = true := natToStr_all_digits n.toNat c (by rw [hd]; simp)
      have hb := isDigit_bounds hdig
      show parseNumber (c :: (cs ++ rest)) = some (Json.num n, rest)
      unfold parseNumber
      show (if c = '-' then
          match parseNat (cs ++ rest) with
          | some (n1, r1) => some (Json.num (-(n1 : Int)), r1)
          | none => none
        else
          match parseNat (c :: (cs ++ rest)) with
          | some (n1, r1) => some (Json.num (n1 : Int), r1)
          | none => none) = some (Json.num n, rest)
      rw [if_neg (show ¬ c = '-' by
        intro hc
        rw [hc] at hb
        revert hb
        decide)]
      show (match parseNat ((c :: cs) ++ rest) with
        | some (n1, r1) => some (Json.num (n1 : Int), r1)
        | none => none) = some (Json.num n, rest)
      rw [← hd, parseNat_natToStr _ rest h]
      show some (Json.num ((n.toNat : Nat) : Int), rest) = some (Json.num n, rest)
      rw [show ((n.toNat : Nat) : Int) = n by omega]

theorem consResult_some (ch : Char) (s r : Str) :
    consResult ch (some (s, r)) = some (ch :: s, r) := rfl

theorem psb_cons (fuel : Nat) (c : Char) (rest : Str) :
    parseStringBody (fuel + 1) (c :: rest) =
      if c = '"' then some ([], rest)
      else if c = '\\' then parseEscapeWith (parseStringBody fuel) rest
      else if c.toNat < 0x20 then none
      else consResult c (parseStringBody fuel rest) := rfl

theorem parseEscapeWith_cons (psb : Str → Option (Str × Str)) (e : Char) (rest1 : Str) :
    parseEscapeWith psb (e :: rest1) =
      if e = 'u' then parseUEscapeWith psb rest1
      else
        match shortEscape e with
        | some ch => consResult ch (psb rest1)
        | none => none := rfl

theorem hexQuad_hex4 (n : Nat) (h : n < 0x10000) :
    hexQuad (hexDigitChar (n / 4096 % 16)) (hexDigitChar (n / 256 % 16))
      (hexDigitChar (n / 16 % 16)) (hexDigitChar (n % 16)) = some n := by
  unfold hexQuad
  rw [hexVal_hexDigitChar _ (by omega), hexVal_hexDigitChar _ (by omega),
      hexVal_hexDigitChar _ (by omega), hexVal_hexDigitChar _ (by omega)]
  show some (n / 4096 % 16 * 4096 + n / 256 % 16 * 256 + n / 16 % 16 * 16 + n % 16) = some n
  congr 1
  omega

theorem hexQuadAt_hex4 (n : Nat) (h : n < 0x10000) (u : Str) :
    hexQuadAt (hexDigitChar (n / 4096 % 16) :: hexDigitChar (n / 256 % 16) ::
      hexDigitChar (n / 16 % 16) :: hexDigitChar (n % 16) :: u) = some (n, u) := by
  show (match hexQuad (hexDigitChar (n / 4096 % 16)) (hexDigitChar (n / 256 % 16))
      (hexDigitChar (n / 16 % 16)) (hexDigitChar (n % 16)) with
    | some n1 => some (n1, u)
    | none => none) = some (n, u)
  rw [hexQuad_hex4 n h]

theorem psb_plain (fuel : Nat) (c : Char) (u s2 rest : Str)
    (h1 : ¬ c = '"') (h2 : ¬ c = '\\') (h3 : ¬ c.toNat < 0x20)
    (hu : parseStringBody fuel u = some (s2, rest)) :
    parseStringBody (fuel + 1) (c :: u) = some (c :: s2, rest) := by
  rw [psb_cons, if_neg h1, if_neg h2, if_neg h3, hu, consResult_some]

theorem psb_short (fuel : Nat) (c e : Char) (u s2 rest : Str)
    (he : shortEscape e = some c)
    (hu : parseStringBody fuel u = some (s2, rest)) :
    parseStringBody (fuel + 1) ('\\' :: e :: u) = some (c :: s2, rest) := by
  rw [psb_cons,
      if_neg (by decide : ¬ ('\\' : Char) = '"'),
      if_pos (show ('\\' : Char) = '\\' from rfl),
      parseEscapeWith_cons,
      if_neg (show ¬ e = 'u' by
        intro h2
        rw [h2] at he
        simp [shortEscape] at he),
      he, hu]
  rfl

theorem pueWith_hex4 (psb : Str → Option (Str × Str)) (n : Nat) (u : Str)
    (h : n < 0x10000) :
    parseUEscapeWith psb (hexDigitChar (n / 4096 % 16) :: hexDigitChar (n / 256 % 16) ::
      hexDigitChar (n / 16 % 16) :: hexDigitChar (n % 16) :: u) =
      parseHex4Result psb n u := by
  unfold parseUEscapeWith
  rw [hexQuadAt_hex4 n h]

theorem pueWith_bmp (psb : Str → Option (Str × Str)) (c : Char) (u s2 rest : Str)
    (hlt : c.toNat < 0x10000)
    (hns : ¬ (0xD800 ≤ c.toNat ∧ c.toNat ≤ 0xDBFF))
    (hu : psb u = some (s2, rest)) :
    parseUEscapeWith psb (hexDigitChar (c.toNat / 4096 % 16) ::
      hexDigitChar (c.toNat / 256 % 16) :: hexDigitChar (c.toNat / 16 % 16) ::
      hexDigitChar (c.toNat % 16) :: u) = some (c :: s2, rest) := by
  rw [pueWith_hex4 psb c.toNat u hlt]
  unfold parseHex4Result
  rw [if_neg hns, charOfNat?_toNat, hu]
  rfl

theorem plsWith_cons (psb : Str → Option (Str × Str)) (n : Nat) (e2 u2 : Char) (r2 : Str) :
    parseLowSurrogateWith psb n (e2 :: u2 :: r2) =
      if e2 = '\\' ∧ u2 = 'u' then
        match hexQuadAt r2 with
        | some (m, rest3) => parseLowHex4Result psb n m rest3
        | none => none
      else none := rfl

theorem plsWith_astral (psb : Str → Option (Str × Str)) (c : Char) (u s2 rest : Str)
    (hge : 0x10000 ≤ c.toNat)
    (hu : psb u = some (s2, rest)) :
    parseLowSurrogateWith psb (0xD800 + (c.toNat - 0x10000) / 0x400)
      ('\\' :: 'u' ::
       hexDigitChar ((0xDC00 + (c.toNat - 0x10000) % 0x400) / 4096 % 16) ::
       hexDigitChar ((0xDC00 + (c.toNat - 0x10000) % 0x400) / 256 % 16) ::
       hexDigitChar ((0xDC00 + (c.toNat - 0x10000) % 0x400) / 16 % 16) ::
       hexDigitChar ((0xDC00 + (c.toNat - 0x10000) % 0x400) % 16) :: u) =
      some (c :: s2, rest) := by
  have hv := char_toNat_valid c
  have hlo : 0xDC00 + (c.toNat - 0x10000) % 0x400 < 0x10000 := by
    have := Nat.mod_lt (c.toNat - 0x10000) (show 0 < 0x400 by omega)
    omega
  rw [plsWith_cons]
  rw [if_pos (show ('\\' : Char) = '\\' ∧ ('u' : Char) = 'u' from ⟨rfl, rfl⟩)]
  rw [hexQuadAt_hex4 _ hlo]
  show parseLowHex4Result psb (0xD800 + (c.toNat - 0x10000) / 0x400)
    (0xDC00 + (c.toNat - 0x10000) % 0x400) u = some (c :: s2, rest)
  unfold parseLowHex4Result
  rw [if_pos (show 0xDC00 ≤ 0xDC00 + (c.toNat - 0x10000) % 0x400 ∧
      0xDC00 + (c.toNat - 0x10000) % 0x400 ≤ 0xDFFF by
    constructor
    · omega
    · have := Nat.mod_lt (c.toNat - 0x10000) (show 0 < 0x400 by omega)
      omega)]
  have hsc : charOfNat? (0x10000 +
      (0xD800 + (c.toNat - 0x10000) / 0x400 - 0xD800) * 0x400 +
      (0xDC00 + (c.toNat - 0x10000) % 0x400 - 0xDC00)) = some c := by
    rw [show 0x10000 + (0xD800 + (c.toNat - 0x10000) / 0x400 - 0xD800) * 0x400 +
        (0xDC00 + (c.toNat - 0x10000) % 0x400 - 0xDC00) = c.toNat by omega]
    exact charOfNat?_toNat c
  rw [hsc, hu]
  rfl

theorem pueWith_astral (psb : Str → Option (Str × Str)) (c : Char) (u s2 rest : Str)
    (hge : 0x10000 ≤ c.toNat)
    (hu : psb u = some (s2, rest)) :
    parseUEscapeWith psb
      (hexDigitChar ((0xD800 + (c.toNat - 0x10000) / 0x400) / 4096 % 16) ::
       hexDigitChar ((0xD800 + (c.toNat - 0x10000) / 0x400) / 256 % 16) ::
       hexDigitChar ((0xD800 + (c.toNat - 0x10000) / 0x400) / 16 % 16) ::
       hexDigitChar ((0xD800 + (c.toNat - 0x10000) / 0x400) % 16) ::
       '\\' :: 'u' ::
       hexDigitChar ((0xDC00 + (c.toNat - 0x10000) % 0x400) / 4096 % 16) ::
       hexDigitChar ((0xDC00 + (c.toNat - 0x10000) % 0x400) / 256 % 16) ::
       hexDigitChar ((0xDC00 + (c.toNat - 0x10000) % 0x400) / 16 % 16) ::
       hexDigitChar ((0xDC00 + (c.toNat - 0x10000) % 0x400) % 16) :: u) = some (c :: s2, rest) := by
  have hv := char_toNat_valid c
  have hhi : 0xD800 + (c.toNat - 0x10000) / 0x400 < 0x10000 := by omega
  rw [pueWith_hex4 psb _ _ hhi]
  unfold parseHex4Result
  rw [if_pos (show 0xD800 ≤ 0xD800 + (c.toNat - 0x10000) / 0x400 ∧
      0xD800 + (c.toNat - 0x10000) / 0x400 ≤ 0xDBFF by
    constructor
    · omega
    · have : (c.toNat - 0x10000) / 0x400 ≤ 0x3FF := by omega
      omega)]
  exact plsWith_astral psb c u s2 rest hge hu

theorem psb_u_bmp (fuel : Nat) (c : Char) (u s2 rest : Str)
    (hlt : c.toNat < 0x10000)
    (hns : ¬ (0xD800 ≤ c.toNat ∧ c.toNat ≤ 0xDBFF))
    (hu : parseStringBody fuel u = some (s2, rest)) :
    parseStringBody (fuel + 1) (('\\' :: 'u' :: hex4 c.toNat) ++ u) = some (c :: s2, rest) := by
  show parseStringBody (fuel + 1) ('\\' :: 'u' :: hexDigitChar (c.toNat / 4096 % 16) ::
    hexDigitChar (c.toNat / 256 % 16) :: hexDigitChar (c.toNat / 16 % 16) ::
    hexDigitChar (c.toNat % 16) :: u) = some (c :: s2, rest)
  rw [psb_cons]
  rw [if_neg (by decide : ¬ ('\\' : Char) = '"'),
      if_pos (show ('\\' : Char) = '\\' from rfl)]
  rw [parseEscapeWith_cons]
  rw [if_pos (show ('u' : Char) = 'u' from rfl)]
  exact pueWith_bmp (parseStringBody fuel) c u s2 rest hlt hns hu

theorem psb_u_astral (fuel : Nat) (c : Char) (u s2 rest : Str)
    (hge : 0x10000 ≤ c.toNat)
    (hu : parseStringBody fuel u = some (s2, rest)) :
    parseStringBody (fuel + 1) (('\\' :: 'u' :: hex4 (0xD800 + (c.toNat - 0x10000) / 0x400)) ++
      (('\\' :: 'u' :: hex4 (0xDC00 + (c.toNat - 0x10000) % 0x400)) ++ u)) =
      some (c :: s2, rest) := by
  show parseStringBody (fuel + 1) ('\\' :: 'u' ::
    hexDigitChar ((0xD800 + (c.toNat - 0x10000) / 0x400) / 4096 % 16) ::
    hexDigitChar ((0xD800 + (c.toNat - 0x10000) / 0x400) / 256 % 16) ::
    hexDigitChar ((0xD800 + (c.toNat - 0x10000) / 0x400) / 16 % 16) ::
    hexDigitChar ((0xD800 + (c.toNat - 0x10000) / 0x400) % 16) ::
    '\\' :: 'u' ::
    hexDigitChar ((0xDC00 + (c.toNat - 0x10000) % 0x400) / 4096 % 16) ::
    hexDigitChar ((0xDC00 + (c.toNat - 0x10000) % 0x400) / 256 % 16) ::
    hexDigitChar ((0xDC00 + (c.toNat - 0x10000) % 0x400) / 16 % 16) ::
    hexDigitChar ((0xDC00 + (c.toNat - 0x10000) % 0x400) % 16) :: u) = some (c :: s2, rest)
  rw [psb_cons]
  rw [if_neg (by decide : ¬ ('\\' : Char) = '"'),
      if_pos (show ('\\' : Char) = '\\' from rfl)]
  rw [parseEscapeWith_cons]
  rw [if_pos (show ('u' : Char) = 'u' from rfl)]
  exact pueWith_astral (parseStringBody fuel) c u s2 rest hge hu

theorem escapeStr_cons (c : Char) (s : Str) :
    escapeStr (c :: s) = escapeChar c ++ escapeStr s := rfl

theorem escapeChar_length_pos (c : Char) : 1 ≤ (escapeChar c).length := by
  unfold escapeChar
  repeat' split
  all_goals simp [hex4]

theorem escapeStr_length_ge (s : Str) : s.length ≤ (escapeStr s).length := by
  induction s with
  | nil => simp [escapeStr]
  | cons c s' ih =>
    rw [escapeStr_cons, List.length_append, List.length_cons]
    have := escapeChar_length_pos c
    omega

theorem parseStringBody_escape (s : Str) : ∀ (fuel : Nat) (rest : Str),
    s.length + 1 ≤ fuel →
    parseStringBody fuel (escapeStr s ++ '"' :: rest) = some (s, rest) := by
  induction s with
  | nil =>
    intro fuel rest h
    obtain ⟨f, rfl⟩ : ∃ f, fuel = f + 1 := ⟨fuel - 1, by omega⟩
    show parseStringBody (f + 1) ('"' :: rest) = some ([], rest)
    rw [psb_cons, if_pos (show ('"' : Char) = '"' from rfl)]
  | cons c s' ih =>
    intro fuel rest h
    obtain ⟨f, rfl⟩ : ∃ f, fuel = f + 1 := ⟨fuel - 1, by omega⟩
    have hf : s'.length + 1 ≤ f := by
      simp only [List.length_cons] at h
      omega
    have ihf := ih f rest hf
    rw [show escapeStr (c :: s') ++ '"' :: rest =
        escapeChar c ++ (escapeStr s' ++ '"' :: rest) from by
      rw [escapeStr_cons, List.append_assoc]]
    by_cases h1 : c = '\\'
    · subst h1
      exact psb_short f '\\' '\\' _ s' rest rfl ihf
    by_cases h2 : c = '"'
    · subst h2
      exact psb_short f '"' '"' _ s' rest rfl ihf
    by_cases h3 : c = '\x08'
    · subst h3
      exact psb_short f '\x08' 'b' _ s' rest rfl ihf
    by_cases h4 : c = '\t'
    · subst h4
      exact psb_short f '\t' 't' _ s' rest rfl ihf
    by_cases h5 : c = '\n'
    · subst h5
      exact psb_short f '\n' 'n' _ s' rest rfl ihf
    by_cases h6 : c = '\x0c'
    · subst h6
      exact psb_short f '\x0c' 'f' _ s' rest rfl ihf
    by_cases h7 : c = '\r'
    · subst h7
      exact psb_short f '\r' 'r' _ s' rest rfl ihf
    by_cases h8 : c.toNat < 0x20
    · have hec : escapeChar c = '\\' :: 'u' :: hex4 c.toNat := by
        unfold escapeChar
        rw [if_neg h1, if_neg h2, if_neg h3, if_neg h4, if_neg h5, if_neg h6, if_neg h7,
            if_pos h8]
      rw [hec]
      exact psb_u_bmp f c _ s' rest (by omega) (by omega) ihf
    by_cases h9 : c.toNat ≤ 0x7e
    · have hec : escapeChar c = [c] := by
        unfold escapeChar
        rw [if_neg h1, if_neg h2, if_neg h3, if_neg h4, if_neg h5, if_neg h6, if_neg h7,
            if_neg h8, if_pos h9]
      rw [hec]
      exact psb_plain f c _ s' rest h2 h1 h8 ihf
    by_cases h10 : c.toNat < 0x10000
    · have hec : escapeChar c = '\\' :: 'u' :: hex4 c.toNat := by
        unfold escapeChar
        rw [if_neg h1, if_neg h2, if_neg h3, if_neg h4, if_neg h5, if_neg h6, if_neg h7,
            if_neg h8, if_neg h9, if_pos h10]
      rw [hec]
      have hns : ¬ (0xD800 ≤ c.toNat ∧ c.toNat ≤ 0xDBFF) := by
        have hv := char_toNat_valid c
        omega
      exact psb_u_bmp f c _ s' rest h10 hns ihf
    · have hec : escapeChar c =
          ('\\' :: 'u' :: hex4 (0xD800 + (c.toNat - 0x10000) / 0x400)) ++
          ('\\' :: 'u' :: hex4 (0xDC00 + (c.toNat - 0x10000) % 0x400)) := by
        unfold escapeChar
        rw [if_neg h1, if_neg h2, if_neg h3, if_neg h4, if_neg h5, if_neg h6, if_neg h7,
            if_neg h8, if_neg h9, if_neg h10]
      rw [hec, List.append_assoc]
      exact psb_u_astral f c _ s' rest (by omega) ihf


/-! Step equations and dispatch lemmas for the value parser. -/

theorem pv_succ (fuel : Nat) (s : Str) :
    parseValue (fuel + 1) s =
      match skipWs s with
      | [] => none
      | c :: r =>
        if c = '{' then objResult (parseKVs fuel r)
        else if c = '[' then parseElems fuel r
        else if c = '"' then strResult (parseStringBody (r.length + 1) r)
        else if c = 't' then parseTrueTail r
        else if c = 'f' then parseFalseTail r
        else if c = 'n' then parseNullTail r
        else parseNumber (c :: r) := rfl

theorem pe_succ (fuel : Nat) (s : Str) :
    parseElems (fuel + 1) s =
      match skipWs s with
      | [] => none
      | c :: r =>
        if c = ']' then some (Json.arr [], r)
        else elemCont (parseElemsRest fuel) [] (parseValue fuel (c :: r)) := rfl

theorem per_succ (fuel : Nat) (acc : List Json) (s : Str) :
    parseElemsRest (fuel + 1) acc s =
      match skipWs s with
      | [] => none
      | c :: r =>
        if c = ']' then some (Json.arr acc.reverse, r)
        else if c = ',' then elemCont (parseElemsRest fuel) acc (parseValue fuel r)
        else none := rfl

theorem pkv_succ (fuel : Nat) (s : Str) :
    parseKVs (fuel + 1) s =
      match skipWs s with
      | [] => none
      | c :: r =>
        if c = '}' then some ([], r)
        else if c = '"' then
          kvKeyCont (parseValue fuel) (parseKVsRest fuel) [] (parseStringBody (r.length + 1) r)
        else none := rfl

theorem pkr_succ (fuel : Nat) (acc : List (Str × Json)) (s : Str) :
    parseKVsRest (fuel + 1) acc s =
      match skipWs s with
      | [] => none
      | c :: r =>
        if c = '}' then some (acc.reverse, r)
        else if c = ',' then
          match skipWs r with
          | '"' :: r1 =>
            kvKeyCont (parseValue fuel) (parseKVsRest fuel) acc (parseStringBody (r1.length + 1) r1)
          | _ => none
        else none := rfl

theorem skipWs_cons_nonws {c : Char} (h : isJsonWs c = false) (r : Str) :
    skipWs (c :: r) = c :: r := by
  unfold skipWs
  rw [List.dropWhile_cons, if_neg (by rw [h]; exact Bool.false_ne_true)]

theorem skipWs_cons_ws {c : Char} (h : isJsonWs c = true) (r : Str) :
    skipWs (c :: r) = skipWs r := by
  unfold skipWs
  rw [List.dropWhile_cons, if_pos h]

theorem pv_cons (fuel : Nat) (c : Char) (r s : Str) (h : skipWs s = c :: r) :
    parseValue (fuel + 1) s =
      if c = '{' then objResult (parseKVs fuel r)
      else if c = '[' then parseElems fuel r
      else if c = '"' then strResult (parseStringBody (r.length + 1) r)
      else if c = 't' then parseTrueTail r
      else if c = 'f' then parseFalseTail r
      else if c = 'n' then parseNullTail r
      else parseNumber (c :: r) := by
  rw [pv_succ, h]

theorem pv_ws (fuel : Nat) {c : Char} (h : isJsonWs c = true) (s : Str) :
    parseValue (fuel + 1) (c :: s) = parseValue (fuel + 1) s := by
  rw [pv_succ, pv_succ, skipWs_cons_ws h]

theorem pe_cons (fuel : Nat) (c : Char) (r s : Str) (h : skipWs s = c :: r) :
    parseElems (fuel + 1) s =
      if c = ']' then some (Json.arr [], r)
      else elemCont (parseElemsRest fuel) [] (parseValue fuel (c :: r)) := by
  rw [pe_succ, h]

theorem per_cons (fuel : Nat) (acc : List Json) (c : Char) (r s : Str) (h : skipWs s = c :: r) :
    parseElemsRest (fuel + 1) acc s =
      if c = ']' then some (Json.arr acc.reverse, r)
      else if c = ',' then elemCont (parseElemsRest fuel) acc (parseValue fuel r)
      else none := by
  rw [per_succ, h]

theorem pkv_cons (fuel : Nat) (c : Char) (r s : Str) (h : skipWs s = c :: r) :
    parseKVs (fuel + 1) s =
      if c = '}' then some ([], r)
      else if c = '"' then
        kvKeyCont (parseValue fuel) (parseKVsRest fuel) [] (parseStringBody (r.length + 1) r)
      else none := by
  rw [pkv_succ, h]

theorem pkr_cons (fuel : Nat) (acc : List (Str × Json)) (c : Char) (r s : Str)
    (h : skipWs s = c :: r) :
    parseKVsRest (fuel + 1) acc s =
      if c = '}' then some (acc.reverse, r)
      else if c = ',' then
        match skipWs r with
        | '"' :: r1 =>
          kvKeyCont (parseValue fuel) (parseKVsRest fuel) acc (parseStringBody (r1.length + 1) r1)
        | _ => none
      else none := by
  rw [pkr_succ, h]

/-! Classification of the first character of a printed value, and of what
follows printed list tails. -/

theorem char_ne_of_toNat {a b : Char} (h : a.toNat ≠ b.toNat) : a ≠ b :=
  fun he => h (he ▸ rfl)

theorem isJsonWs_false {c : Char}
    (h : c.toNat ≠ 32 ∧ c.toNat ≠ 9 ∧ c.toNat ≠ 10 ∧ c.toNat ≠ 13) :
    isJsonWs c = false := by
  unfold isJsonWs
  have o1 : (c == ' ') = false := beq_eq_false_iff_ne.mpr
    (char_ne_of_toNat (by rw [show (' ' : Char).toNat = 32 from rfl]; exact h.1))
  have o2 : (c == '\t') = false := beq_eq_false_iff_ne.mpr
    (char_ne_of_toNat (by rw [show ('\t' : Char).toNat = 9 from rfl]; exact h.2.1))
  have o3 : (c == '\n') = false := beq_eq_false_iff_ne.mpr
    (char_ne_of_toNat (by rw [show ('\n' : Char).toNat = 10 from rfl]; exact h.2.2.1))
  have o4 : (c == '\r') = false := beq_eq_false_iff_ne.mpr
    (char_ne_of_toNat (by rw [show ('\r' : Char).toNat = 13 from rfl]; exact h.2.2.2))
  rw [o1, o2, o3, o4]
  rfl

theorem intToStr_head (n : Int) :
    ∃ c cs, intToStr n = c :: cs ∧ (c = '-' ∨ c.isDigit = true) := by
  unfold intToStr
  by_cases hn : n < 0
  · rw [if_pos hn]
    exact ⟨'-', _, rfl, Or.inl rfl⟩
  · rw [if_neg hn]
    rcases hd : natToStr n.toNat with _ | ⟨c, cs⟩
    · exact absurd hd (natToStr_ne_nil _)
    · refine ⟨c, cs, rfl, Or.inr ?_⟩
      exact natToStr_all_digits n.toNat c (by rw [hd]; exact List.mem_cons_self c cs)

theorem pyDumps_head (j : Json) :
    ∃ c cs, pyDumps j = c :: cs ∧ isJsonWs c = false ∧ c ≠ ']' := by
  cases j with
  | null => exact ⟨'n', ['u', 'l', 'l'], by simp [pyDumps], by decide, by decide⟩
  | bool b =>
    cases b with
    | true => exact ⟨'t', ['r', 'u', 'e'], by simp [pyDumps], by decide, by decide⟩
    | false => exact ⟨'f', ['a', 'l', 's', 'e'], by simp [pyDumps], by decide, by decide⟩
  | num n =>
    obtain ⟨c, cs, hd, hc⟩ := intToStr_head n
    refine ⟨c, cs, by simp [pyDumps, hd], ?_, ?_⟩
    · rcases hc with hc | hc
      · subst hc; decide
      · have hb := isDigit_bounds hc
        exact isJsonWs_false (by omega)
    · rcases hc with hc | hc
      · subst hc; decide
      · have hb := isDigit_bounds hc
        exact char_ne_of_toNat (by rw [show (']' : Char).toNat = 93 from rfl]; omega)
  | str s => exact ⟨'"', escapeStr s ++ ['"'], by simp [pyDumps], by decide, by decide⟩
  | arr xs =>
    cases xs with
    | nil => exact ⟨'[', [']'], by simp [pyDumps], by decide, by decide⟩
    | cons x xs =>
      exact ⟨'[', pyDumps x ++ (pyDumpsElems xs ++ [']']), by simp [pyDumps], by decide,
        by decide⟩
  | obj kvs =>
    cases kvs with
    | nil => exact ⟨'{', ['}'], by simp [pyDumps], by decide, by decide⟩
    | cons kv kvs =>
      exact ⟨'{', pyDumpsKV kv ++ (pyDumpsKVs kvs ++ ['}']), by simp [pyDumps], by decide,
        by decide⟩

theorem pyDumps_length_pos (j : Json) : 1 ≤ (pyDumps j).length := by
  obtain ⟨c, cs, hd, _, _⟩ := pyDumps_head j
  rw [hd]
  simp

theorem restOK_elems (xs : List Json) (rest : Str) :
    restOK (pyDumpsElems xs ++ ']' :: rest) := by
  cases xs with
  | nil =>
    show restOK (']' :: rest)
    exact Or.inr (Or.inl rfl)
  | cons x xs =>
    rw [show pyDumpsElems (x :: xs) = ',' :: ' ' :: (pyDumps x ++ pyDumpsElems xs) from by
      simp [pyDumpsElems]]
    exact Or.inl rfl

theorem restOK_kvs (kvs : List (Str × Json)) (rest : Str) :
    restOK (pyDumpsKVs kvs ++ '}' :: rest) := by
  cases kvs with
  | nil =>
    show restOK ('}' :: rest)
    exact Or.inr (Or.inr rfl)
  | cons kv kvs =>
    rw [show pyDumpsKVs (kv :: kvs) = ',' :: ' ' :: (pyDumpsKV kv ++ pyDumpsKVs kvs) from by
      simp [pyDumpsKVs]]
    exact Or.inl rfl

/-! The dict built from distinct-key pairs is the pair list itself. -/

theorem objInsert_fresh (acc : List (Str × Json)) (k : Str) (v : Json)
    (h : acc.any (fun kv2 => kv2.1 == k) = false) :
    objInsert acc k v = acc ++ [(k, v)] := by
  unfold objInsert
  rw [h]
  rfl

theorem foldl_objInsert (kvs : List (Str × Json)) : ∀ acc : List (Str × Json),
    keysNodup kvs = true →
    (∀ kv ∈ kvs, acc.any (fun kv2 => kv2.1 == kv.1) = false) →
    kvs.foldl (fun acc kv => objInsert acc kv.1 kv.2) acc = acc ++ kvs := by
  induction kvs with
  | nil =>
    intro acc _ _
    simp
  | cons kv kvs ih =>
    intro acc hnodup hdisj
    rw [List.foldl_cons]
    rw [objInsert_fresh acc kv.1 kv.2 (hdisj kv (List.mem_cons_self kv kvs))]
    have hsplit : (!(kvs.any (fun kv2 => kv2.1 == kv.1))) = true ∧ keysNodup kvs = true := by
      have h := hnodup
      unfold keysNodup at h
      rw [Bool.and_eq_true] at h
      exact h
    have hnodup2 : keysNodup kvs = true := hsplit.2
    have hhead : kvs.any (fun kv2 => kv2.1 == kv.1) = false := by
      have := hsplit.1
      rwa [Bool.not_eq_true'] at this
    have hdisj2 : ∀ kv2 ∈ kvs, (acc ++ [(kv.1, kv.2)]).any (fun kv3 => kv3.1 == kv2.1) = false := by
      intro kv2 hm
      rw [List.any_append]
      rw [hdisj kv2 (List.mem_cons_of_mem kv hm)]
      have hone : ((kv.1, kv.2).1 == kv2.1) = false := by
        cases hany : (kv.1 == kv2.1) with
        | false => rfl
        | true =>
          exfalso
          have hx : kvs.any (fun kv2x => kv2x.1 == kv.1) = true := by
            rw [List.any_eq_true]
            refine ⟨kv2, hm, ?_⟩
            rw [beq_iff_eq] at hany ⊢
            exact hany.symm
          rw [hx] at hhead
          exact Bool.noConfusion hhead
      simp [hone]
    rw [ih (acc ++ [(kv.1, kv.2)]) hnodup2 hdisj2]
    simp

theorem elemCont_some (per : List Json → Str → Option (Json × Str)) (acc : List Json)
    (v : Json) (r1 : Str) : elemCont per acc (some (v, r1)) = per (v :: acc) r1 := rfl

theorem kvValCont_some (pkr : List (Str × Json) → Str → Option (List (Str × Json) × Str))
    (acc : List (Str × Json)) (k : Str) (v : Json) (r3 : Str) :
    kvValCont pkr acc k (some (v, r3)) = pkr ((k, v) :: acc) r3 := rfl

theorem kvKeyCont_some (pv : Str → Option (Json × Str))
    (pkr : List (Str × Json) → Str → Option (List (Str × Json) × Str))
    (acc : List (Str × Json)) (k r1 : Str) :
    kvKeyCont pv pkr acc (some (k, r1)) =
      (match skipWs r1 with
       | ':' :: r2 => kvValCont pkr acc k (pv r2)
       | _ => none) := rfl

theorem needFuel_pos (j : Json) : 1 ≤ needFuel j := by
  cases j <;> simp [needFuel]

theorem needElemsRest_pos (xs : List Json) : 1 ≤ needElemsRest xs := by
  cases xs <;> simp [needElemsRest]

theorem needKVsRest_pos (kvs : List (Str × Json)) : 1 ≤ needKVsRest kvs := by
  cases kvs <;> simp [needKVsRest]

/-- The parser reads back every printed well-formed value: the three mutual
loops, by strong induction on the fuel. -/
theorem parse_print : ∀ fuel : Nat,
    (∀ j rest, jsonWF j = true → needFuel j ≤ fuel → restOK rest →
       parseValue fuel (pyDumps j ++ rest) = some (j, rest)) ∧
    (∀ xs acc rest, jsonWFList xs = true → needElemsRest xs ≤ fuel →
       parseElemsRest fuel acc (pyDumpsElems xs ++ ']' :: rest) =
         some (Json.arr (acc.reverse ++ xs), rest)) ∧
    (∀ kvs acc rest, jsonWFKVs kvs = true → needKVsRest kvs ≤ fuel →
       parseKVsRest fuel acc (pyDumpsKVs kvs ++ '}' :: rest) =
         some (acc.reverse ++ kvs, rest)) := by
  intro fuel
  induction fuel using Nat.strong_induction_on with
  | _ fuel ih =>
    refine ⟨?_, ?_, ?_⟩
    · -- parseValue on a printed value
      intro j rest hwf hlen hrest
      obtain ⟨f, rfl⟩ : ∃ f, fuel = f + 1 := ⟨fuel - 1, by
        have := needFuel_pos j
        omega⟩
      cases j with
      | null =>
        rw [show pyDumps Json.null ++ rest = 'n' :: 'u' :: 'l' :: 'l' :: rest from by
          simp [pyDumps]]
        rw [pv_cons f 'n' ('u' :: 'l' :: 'l' :: rest) _ (skipWs_cons_nonws (by decide) _)]
        rw [if_neg (by decide), if_neg (by decide), if_neg (by decide), if_neg (by decide),
            if_neg (by decide), if_pos (show ('n' : Char) = 'n' from rfl)]
        rfl
      | bool b =>
        cases b with
        | true =>
          rw [show pyDumps (Json.bool true) ++ rest = 't' :: 'r' :: 'u' :: 'e' :: rest from by
            simp [pyDumps]]
          rw [pv_cons f 't' ('r' :: 'u' :: 'e' :: rest) _ (skipWs_cons_nonws (by decide) _)]
          rw [if_neg (by decide), if_neg (by decide), if_neg (by decide),
              if_pos (show ('t' : Char) = 't' from rfl)]
          rfl
        | false =>
          rw [show pyDumps (Json.bool false) ++ rest =
              'f' :: 'a' :: 'l' :: 's' :: 'e' :: rest from by simp [pyDumps]]
          rw [pv_cons f 'f' ('a' :: 'l' :: 's' :: 'e' :: rest) _
            (skipWs_cons_nonws (by decide) _)]
          rw [if_neg (by decide), if_neg (by decide), if_neg (by decide), if_neg (by decide),
              if_pos (show ('f' : Char) = 'f' from rfl)]
          rfl
      | num n =>
        rw [show pyDumps (Json.num n) = intToStr n from by simp [pyDumps]]
        obtain ⟨c, cs, hd, hc⟩ := intToStr_head n
        rw [hd, List.cons_append]
        have hcb : c.toNat = 45 ∨ (48 ≤ c.toNat ∧ c.toNat ≤ 57) := by
          rcases hc with hc | hc
          · left; rw [hc]; rfl
          · right; exact isDigit_bounds hc
        rw [pv_cons f c (cs ++ rest) _ (skipWs_cons_nonws (isJsonWs_false (by omega)) _)]
        have g1 : c ≠ '{' := char_ne_of_toNat
          (by rw [show ('{' : Char).toNat = 123 from rfl]; omega)
        have g2 : c ≠ '[' := char_ne_of_toNat
          (by rw [show ('[' : Char).toNat = 91 from rfl]; omega)
        have g3 : c ≠ '"' := char_ne_of_toNat
          (by rw [show ('"' : Char).toNat = 34 from rfl]; omega)
        have g4 : c ≠ 't' := char_ne_of_toNat
          (by rw [show ('t' : Char).toNat = 116 from rfl]; omega)
        have g5 : c ≠ 'f' := char_ne_of_toNat
          (by rw [show ('f' : Char).toNat = 102 from rfl]; omega)
        have g6 : c ≠ 'n' := char_ne_of_toNat
          (by rw [show ('n' : Char).toNat = 110 from rfl]; omega)
        rw [if_neg g1, if_neg g2, if_neg g3, if_neg g4, if_neg g5, if_neg g6]
        rw [← List.cons_append, ← hd]
        exact parseNumber_intToStr n rest hrest
      | str s =>
        rw [show pyDumps (Json.str s) ++ rest = '"' :: (escapeStr s ++ '"' :: rest) from by
          simp [pyDumps]]
        rw [pv_cons f '"' (escapeStr s ++ '"' :: rest) _ (skipWs_cons_nonws (by decide) _)]
        rw [if_neg (by decide), if_neg (by decide), if_pos (show ('"' : Char) = '"' from rfl)]
        rw [parseStringBody_escape s _ rest (by
          rw [List.length_append, List.length_cons]
          have := escapeStr_length_ge s
          omega)]
        rfl
      | arr xs =>
        simp only [needFuel, needArr] at hlen
        cases xs with
        | nil =>
          rw [show pyDumps (Json.arr []) ++ rest = '[' :: ']' :: rest from by
            simp [pyDumps]]
          rw [pv_cons f '[' (']' :: rest) _ (skipWs_cons_nonws (by decide) _)]
          rw [if_neg (by decide), if_pos (show ('[' : Char) = '[' from rfl)]
          obtain ⟨f2, rfl⟩ : ∃ f2, f = f2 + 1 := ⟨f - 1, by
            simp only [needArr] at hlen
            omega⟩
          rw [pe_cons f2 ']' rest _ (skipWs_cons_nonws (by decide) _)]
          rw [if_pos (show (']' : Char) = ']' from rfl)]
        | cons x xs2 =>
          simp only [needArr] at hlen
          have hwx : jsonWF x = true ∧ jsonWFList xs2 = true := by
            have h := hwf
            unfold jsonWF jsonWFList at h
            rw [Bool.and_eq_true] at h
            exact h
          rw [show pyDumps (Json.arr (x :: xs2)) ++ rest =
              '[' :: (pyDumps x ++ (pyDumpsElems xs2 ++ ']' :: rest)) from by
            simp [pyDumps]]
          rw [pv_cons f '[' _ _ (skipWs_cons_nonws (by decide) _)]
          rw [if_neg (by decide), if_pos (show ('[' : Char) = '[' from rfl)]
          obtain ⟨f2, rfl⟩ : ∃ f2, f = f2 + 1 := ⟨f - 1, by omega⟩
          obtain ⟨c, cs, hd, hws, hne⟩ := pyDumps_head x
          rw [show pyDumps x ++ (pyDumpsElems xs2 ++ ']' :: rest) =
              c :: (cs ++ (pyDumpsElems xs2 ++ ']' :: rest)) from by
            rw [hd, List.cons_append]]
          rw [pe_cons f2 c _ _ (skipWs_cons_nonws hws _)]
          rw [if_neg hne]
          rw [show c :: (cs ++ (pyDumpsElems xs2 ++ ']' :: rest)) =
              pyDumps x ++ (pyDumpsElems xs2 ++ ']' :: rest) from by
            rw [hd, List.cons_append]]
          rw [(ih f2 (by omega)).1 x (pyDumpsElems xs2 ++ ']' :: rest) hwx.1 (by omega)
            (restOK_elems xs2 rest)]
          rw [elemCont_some]
          rw [(ih f2 (by omega)).2.1 xs2 [x] rest hwx.2 (by omega)]
          simp
      | obj kvs =>
        simp only [needFuel, needObj] at hlen
        cases kvs with
        | nil =>
          rw [show pyDumps (Json.obj []) ++ rest = '{' :: '}' :: rest from by
            simp [pyDumps]]
          rw [pv_cons f '{' ('}' :: rest) _ (skipWs_cons_nonws (by decide) _)]
          rw [if_pos (show ('{' : Char) = '{' from rfl)]
          obtain ⟨f2, rfl⟩ : ∃ f2, f = f2 + 1 := ⟨f - 1, by
            simp only [needObj] at hlen
            omega⟩
          rw [pkv_cons f2 '}' rest _ (skipWs_cons_nonws (by decide) _)]
          rw [if_pos (show ('}' : Char) = '}' from rfl)]
          rfl
        | cons kv kvs2 =>
          obtain ⟨k, v⟩ := kv
          simp only [needObj] at hlen
          have hsplit : keysNodup ((k, v) :: kvs2) = true ∧
              (jsonWF v = true ∧ jsonWFKVs kvs2 = true) := by
            have h := hwf
            unfold jsonWF jsonWFKVs at h
            rw [Bool.and_eq_true, Bool.and_eq_true] at h
            exact h
          rw [show pyDumps (Json.obj ((k, v) :: kvs2)) ++ rest =
              '{' :: '"' :: (escapeStr k ++ '"' :: ':' :: ' ' ::
                (pyDumps v ++ (pyDumpsKVs kvs2 ++ '}' :: rest))) from by
            simp [pyDumps, pyDumpsKV]]
          rw [pv_cons f '{' _ _ (skipWs_cons_nonws (by decide) _)]
          rw [if_pos (show ('{' : Char) = '{' from rfl)]
          obtain ⟨f2, rfl⟩ : ∃ f2, f = f2 + 1 := ⟨f - 1, by omega⟩
          rw [pkv_cons f2 '"' _ _ (skipWs_cons_nonws (by decide) _)]
          rw [if_neg (by decide), if_pos (show ('"' : Char) = '"' from rfl)]
          rw [parseStringBody_escape k _ (':' :: ' ' ::
              (pyDumps v ++ (pyDumpsKVs kvs2 ++ '}' :: rest))) (by
            rw [List.length_append, List.length_cons]
            have := escapeStr_length_ge k
            omega)]
          rw [kvKeyCont_some]
          rw [skipWs_cons_nonws (by decide)]
          show objResult (kvValCont (parseKVsRest f2) [] k
              (parseValue f2 (' ' :: (pyDumps v ++ (pyDumpsKVs kvs2 ++ '}' :: rest))))) =
            some (Json.obj ((k, v) :: kvs2), rest)
          obtain ⟨f3, rfl⟩ : ∃ f3, f2 = f3 + 1 := ⟨f2 - 1, by
            have := needFuel_pos v
            omega⟩
          rw [pv_ws f3 (by decide)]
          rw [(ih (f3 + 1) (by omega)).1 v (pyDumpsKVs kvs2 ++ '}' :: rest) hsplit.2.1
            (by omega) (restOK_kvs kvs2 rest)]
          rw [kvValCont_some]
          rw [(ih (f3 + 1) (by omega)).2.2 kvs2 [(k, v)] rest hsplit.2.2 (by omega)]
          show some (Json.obj (((k, v) :: kvs2).foldl
              (fun acc kv => objInsert acc kv.1 kv.2) []), rest) =
            some (Json.obj ((k, v) :: kvs2), rest)
          rw [foldl_objInsert ((k, v) :: kvs2) [] hsplit.1 (by
            intro kv2 hm
            rfl)]
          rfl
    · -- parseElemsRest on a printed element tail
      intro xs acc rest hwfl hlen
      obtain ⟨f, rfl⟩ : ∃ f, fuel = f + 1 := ⟨fuel - 1, by
        have := needElemsRest_pos xs
        omega⟩
      cases xs with
      | nil =>
        rw [show pyDumpsElems ([] : List Json) ++ ']' :: rest = ']' :: rest from by
          simp [pyDumpsElems]]
        rw [per_cons f acc ']' rest _ (skipWs_cons_nonws (by decide) _)]
        rw [if_pos (show (']' : Char) = ']' from rfl)]
        simp
      | cons x xs2 =>
        simp only [needElemsRest] at hlen
        have hwx : jsonWF x = true ∧ jsonWFList xs2 = true := by
          have h := hwfl
          unfold jsonWFList at h
          rw [Bool.and_eq_true] at h
          exact h
        rw [show pyDumpsElems (x :: xs2) ++ ']' :: rest =
            ',' :: ' ' :: (pyDumps x ++ (pyDumpsElems xs2 ++ ']' :: rest)) from by
          simp [pyDumpsElems]]
        rw [per_cons f acc ',' _ _ (skipWs_cons_nonws (by decide) _)]
        rw [if_neg (by decide), if_pos (show (',' : Char) = ',' from rfl)]
        obtain ⟨f2, rfl⟩ : ∃ f2, f = f2 + 1 := ⟨f - 1, by
          have := needFuel_pos x
          omega⟩
        rw [pv_ws f2 (by decide)]
        rw [(ih (f2 + 1) (by omega)).1 x (pyDumpsElems xs2 ++ ']' :: rest) hwx.1 (by omega)
          (restOK_elems xs2 rest)]
        rw [elemCont_some]
        rw [(ih (f2 + 1) (by omega)).2.1 xs2 (x :: acc) rest hwx.2 (by omega)]
        simp
    · -- parseKVsRest on a printed member tail
      intro kvs acc rest hwfk hlen
      obtain ⟨f, rfl⟩ : ∃ f, fuel = f + 1 := ⟨fuel - 1, by
        have := needKVsRest_pos kvs
        omega⟩
      cases kvs with
      | nil =>
        rw [show pyDumpsKVs ([] : List (Str × Json)) ++ '}' :: rest = '}' :: rest from by
          simp [pyDumpsKVs]]
        rw [pkr_cons f acc '}' rest _ (skipWs_cons_nonws (by decide) _)]
        rw [if_pos (show ('}' : Char) = '}' from rfl)]
        simp
      | cons kv kvs2 =>
        obtain ⟨k, v⟩ := kv
        simp only [needKVsRest] at hlen
        have hsplit : jsonWF v = true ∧ jsonWFKVs kvs2 = true := by
          have h := hwfk
          unfold jsonWFKVs at h
          rw [Bool.and_eq_true] at h
          exact h
        rw [show pyDumpsKVs ((k, v) :: kvs2) ++ '}' :: rest =
            ',' :: ' ' :: '"' :: (escapeStr k ++ '"' :: ':' :: ' ' ::
              (pyDumps v ++ (pyDumpsKVs kvs2 ++ '}' :: rest))) from by
          simp [pyDumpsKVs, pyDumpsKV]]
        rw [pkr_cons f acc ',' _ _ (skipWs_cons_nonws (by decide) _)]
        rw [if_neg (by decide), if_pos (show (',' : Char) = ',' from rfl)]
        rw [skipWs_cons_ws (by decide), skipWs_cons_nonws (by decide)]
        show kvKeyCont (parseValue f) (parseKVsRest f) acc
            (parseStringBody ((escapeStr k ++ '"' :: ':' :: ' ' ::
              (pyDumps v ++ (pyDumpsKVs kvs2 ++ '}' :: rest))).length + 1)
              (escapeStr k ++ '"' :: ':' :: ' ' ::
                (pyDumps v ++ (pyDumpsKVs kvs2 ++ '}' :: rest)))) =
          some (acc.reverse ++ (k, v) :: kvs2, rest)
        rw [parseStringBody_escape k _ (':' :: ' ' ::
            (pyDumps v ++ (pyDumpsKVs kvs2 ++ '}' :: rest))) (by
          rw [List.length_append, List.length_cons]
          have := escapeStr_length_ge k
          omega)]
        rw [kvKeyCont_some]
        rw [skipWs_cons_nonws (by decide)]
        show kvValCont (parseKVsRest f) acc k
            (parseValue f (' ' :: (pyDumps v ++ (pyDumpsKVs kvs2 ++ '}' :: rest)))) =
          some (acc.reverse ++ (k, v) :: kvs2, rest)
        obtain ⟨f2, rfl⟩ : ∃ f2, f = f2 + 1 := ⟨f - 1, by
          have := needFuel_pos v
          omega⟩
        rw [pv_ws f2 (by decide)]
        rw [(ih (f2 + 1) (by omega)).1 v (pyDumpsKVs kvs2 ++ '}' :: rest) hsplit.1 (by omega)
          (restOK_kvs kvs2 rest)]
        rw [kvValCont_some]
        rw [(ih (f2 + 1) (by omega)).2.2 kvs2 ((k, v) :: acc) rest hsplit.2 (by omega)]
        simp

/-- The fuel `pyLoads` supplies (input length + 1) covers the requirement
of the printed form, by strong induction on a size bound. -/
theorem need_le_len : ∀ N : Nat,
    (∀ j : Json, sizeOf j ≤ N → needFuel j ≤ (pyDumps j).length + 1) ∧
    (∀ xs : List Json, sizeOf xs ≤ N → needElemsRest xs ≤ (pyDumpsElems xs).length + 1) ∧
    (∀ kvs : List (Str × Json), sizeOf kvs ≤ N →
      needKVsRest kvs ≤ (pyDumpsKVs kvs).length + 1) := by
  intro N
  induction N using Nat.strong_induction_on with
  | _ N ih =>
    refine ⟨?_, ?_, ?_⟩
    · intro j hsz
      cases j with
      | null => simp [needFuel, pyDumps]
      | bool b => cases b <;> simp [needFuel, pyDumps]
      | num n => simp [needFuel]
      | str s => simp [needFuel]
      | arr xs =>
        cases xs with
        | nil => simp [needFuel, needArr, pyDumps]
        | cons x xs2 =>
          simp only [Json.arr.sizeOf_spec, List.cons.sizeOf_spec] at hsz
          have hN : N - 1 < N := by omega
          have hx : needFuel x ≤ (pyDumps x).length + 1 :=
            (ih (N - 1) hN).1 x (by omega)
          have hxs : needElemsRest xs2 ≤ (pyDumpsElems xs2).length + 1 :=
            (ih (N - 1) hN).2.1 xs2 (by omega)
          simp only [needFuel, needArr]
          rw [show pyDumps (Json.arr (x :: xs2)) =
              '[' :: (pyDumps x ++ (pyDumpsElems xs2 ++ [']'])) from by simp [pyDumps]]
          simp only [List.length_cons, List.length_append]
          omega
      | obj kvs =>
        cases kvs with
        | nil => simp [needFuel, needObj, pyDumps]
        | cons kv kvs2 =>
          obtain ⟨k, v⟩ := kv
          simp only [Json.obj.sizeOf_spec, List.cons.sizeOf_spec, Prod.mk.sizeOf_spec] at hsz
          have hN : N - 1 < N := by omega
          have hv : needFuel v ≤ (pyDumps v).length + 1 :=
            (ih (N - 1) hN).1 v (by omega)
          have hks : needKVsRest kvs2 ≤ (pyDumpsKVs kvs2).length + 1 :=
            (ih (N - 1) hN).2.2 kvs2 (by omega)
          simp only [needFuel, needObj]
          rw [show pyDumps (Json.obj ((k, v) :: kvs2)) =
              '{' :: ('"' :: (escapeStr k ++ '"' :: ':' :: ' ' :: pyDumps v) ++
                (pyDumpsKVs kvs2 ++ ['}'])) from by simp [pyDumps, pyDumpsKV]]
          simp only [List.length_cons, List.length_append]
          omega
    · intro xs hsz
      cases xs with
      | nil => simp [needElemsRest, pyDumpsElems]
      | cons x xs2 =>
        simp only [List.cons.sizeOf_spec] at hsz
        have hN : N - 1 < N := by omega
        have hx : needFuel x ≤ (pyDumps x).length + 1 :=
          (ih (N - 1) hN).1 x (by omega)
        have hxs : needElemsRest xs2 ≤ (pyDumpsElems xs2).length + 1 :=
          (ih (N - 1) hN).2.1 xs2 (by omega)
        simp only [needElemsRest]
        rw [show pyDumpsElems (x :: xs2) =
            ',' :: ' ' :: (pyDumps x ++ pyDumpsElems xs2) from by simp [pyDumpsElems]]
        simp only [List.length_cons, List.length_append]
        omega
    · intro kvs hsz
      cases kvs with
      | nil => simp [needKVsRest, pyDumpsKVs]
      | cons kv kvs2 =>
        obtain ⟨k, v⟩ := kv
        simp only [List.cons.sizeOf_spec, Prod.mk.sizeOf_spec] at hsz
        have hN : N - 1 < N := by omega
        have hv : needFuel v ≤ (pyDumps v).length + 1 :=
          (ih (N - 1) hN).1 v (by omega)
        have hks : needKVsRest kvs2 ≤ (pyDumpsKVs kvs2).length + 1 :=
          (ih (N - 1) hN).2.2 kvs2 (by omega)
        simp only [needKVsRest]
        rw [show pyDumpsKVs ((k, v) :: kvs2) =
            ',' :: ' ' :: ('"' :: (escapeStr k ++ '"' :: ':' :: ' ' :: pyDumps v) ++
              pyDumpsKVs kvs2) from by simp [pyDumpsKVs, pyDumpsKV]]
        simp only [List.length_cons, List.length_append]
        omega

/-- `json.loads` inverts `json.dumps` on every Python-representable value. -/
theorem pyLoads_pyDumps (j : Json) (h : jsonWF j = true) : pyLoads (pyDumps j) = some j := by
  unfold pyLoads
  have hneed : needFuel j ≤ (pyDumps j).length + 1 :=
    (need_le_len (sizeOf j)).1 j (Nat.le_refl _)
  have hpv := (parse_print ((pyDumps j).length + 1)).1 j [] h hneed trivial
  rw [List.append_nil] at hpv
  rw [hpv]
  rfl

/-- C9 counterexample: a truthy model response with a foreign field name is
tagged with the filename and handed to `save_evaluation` as-is, so the
persisted serialization's field names are not the data model's. -/
theorem c9_counterexample :
    pySetItem (evaluate_resume (Except.ok (S "\x7b\"foo\": 1\x7d"))) (S "filename")
        (Json.str (S "cv.pdf")) =
      Except.ok (Json.obj [(S "foo", Json.num 1),
        (S "filename", Json.str (S "cv.pdf"))]) ∧
    [S "foo", S "filename"] ≠ dataModelFields := by
  constructor
  · rfl
  · decide

/-- C9 amended: decoding the persisted serialization of any
Python-representable value returns it unchanged (`json.loads` inverts
`json.dumps`), `save_evaluation` appends exactly one row and leaves every
existing row in place, and a failure-path analysis is stored with exactly
the data model's field names; a success-path analysis keeps whatever names
the model returned. -/
theorem c9_roundtrip_amended :
    (∀ j : Json, jsonWF j = true → pyLoads (pyDumps j) = some j) ∧
    (∀ (tbl : List EvalRow) (uid : Nat) (fn jd rj : Str),
      (save_evaluation tbl uid fn jd rj).take tbl.length = tbl ∧
      (save_evaluation tbl uid fn jd rj).length = tbl.length + 1) ∧
    (∀ (secure : Str → Str) (u : Upload) (e : PyExc),
      u.callOutcome = Except.error e →
      ∃ kvs, tagFilename secure u = Json.obj kvs ∧
        kvs.map Prod.fst = dataModelFields) := by
  refine ⟨pyLoads_pyDumps, ?_, ?_⟩
  · intro tbl uid fn jd rj
    constructor
    · unfold save_evaluation
      exact List.take_left tbl _
    · unfold save_evaluation
      rw [List.length_append]
      rfl
  · intro secure u e h
    refine ⟨[(S "overall_score", Json.num 0),
             (S "sub_scores", Json.obj []),
             (S "summary", Json.str (S "⚠ Could not parse AI response or API error occurred.")),
             (S "skills", Json.obj
               [(S "matched", Json.arr []),
                (S "missing", Json.arr []),
                (S "recommended_improvements", Json.arr [])]),
             (S "filename", Json.str (secure u.filename))], ?_, ?_⟩
    · unfold tagFilename
      rw [h]
      rfl
    · rfl

/-- C9 witness: the round-trip at the concrete fallback analysis, and the
failure-path field names at a concrete failed upload. -/
theorem c9_witness :
    jsonWF fallbackResult = true ∧
    pyLoads (pyDumps fallbackResult) = some fallbackResult ∧
    (∃ kvs, tagFilename id ⟨S "cv.pdf", Except.error "APIError"⟩ = Json.obj kvs ∧
      kvs.map Prod.fst = dataModelFields) :=
  ⟨by rfl,
   c9_roundtrip_amended.1 fallbackResult (by rfl),
   c9_roundtrip_amended.2.2 id ⟨S "cv.pdf", Except.error "APIError"⟩ "APIError" rfl⟩
